import Mathlib

/-!
Verification of the ELB consolidation recommendation engine (elb-pruner).

This file gives a shallow embedding, in Lean 4, of the algorithmic core of
`main.go`: tier assignment by subnets (`assignTier`, `tiers.find`,
`tiers.associate`), listener classification (`inspectListeners`), the greedy
placement algorithm (`elbDrop`, `addELBv2`), security-group ingress
equivalence (`findOrGetIngress`, `hasSameIngress`), output rendering
(`recommendations`, `LB.Ports`, `LB.SecurityGroups`) and the savings
aggregation (`count`, `saving`).

Modelling conventions, matching the Go source:
* Go maps are modelled as association lists (`List (String × α)`) whose key
  set is kept duplicate-free by `setA`; sets stored as `map[T]struct{}` are
  modelled as duplicate-free `List T` via `insertElem`.  Insertion order is
  kept; Go fixes no iteration order for `range` over a map, so the one map
  iteration whose order is observable (the scan of `existingELBv2sBySg` in
  `addELBv2`) receives the enumeration to use as an explicit parameter
  (`scanOrder`); the top-level engine instantiates it with insertion order.
* Go pointers to `tier` and `LB` values (shared between a slice and a
  lookup map) are modelled as indices into the slice, mutation of the
  pointee as `updateAt` on the slice.
* Panics (nil-map dereference in `findOrGetIngress` when a security group
  is missing, `panic` in `inspectListeners` when no protocol is recognised,
  nil dereference in `assignTier` when a load balancer has no subnet) are
  modelled by `Option`: `none` is an aborted run.
* The memoization cache `ingressesBySg` is dropped: the `securityGroups`
  map is never written during a run, so the cache only ever holds values
  equal to what `findOrGetIngress` recomputes; it is not observable.
* `int64` ports are modelled as `Int`; `float64` in `saving` is modelled by
  exact rational arithmetic with `0.9 = 9/10`.
-/

namespace ElbPruner

/-- A listener of a classic ELB: `elb.Listener`, restricted to the two
fields the core reads (`Protocol`, `LoadBalancerPort`). -/
structure Listener where
  protocol : String
  port : Int
deriving DecidableEq

/-- An input load balancer: `elb.LoadBalancerDescription`, restricted to the
fields the core reads. -/
structure LoadBalancerDescription where
  loadBalancerName : String
  subnets : List String
  listenerDescriptions : List Listener
  securityGroups : List String
deriving DecidableEq

/-- A security group: `ec2.SecurityGroup` restricted to `IpPermissions`,
each permission restricted to the `CidrIp` strings of its `IpRanges`. -/
structure SecurityGroup where
  ipPermissions : List (List String)
deriving DecidableEq

/-- Lookup in an association list (a Go map read `m[k]`). -/
def lookupA {α : Type} (k : String) : List (String × α) → Option α
  | [] => none
  | (k', v) :: rest => if k' = k then some v else lookupA k rest

/-- Write to an association list (a Go map write `m[k] = v`): overwrite in
place if the key is present, append otherwise, keeping keys duplicate-free. -/
def setA {α : Type} (k : String) (v : α) : List (String × α) → List (String × α)
  | [] => [(k, v)]
  | (k', v') :: rest => if k' = k then (k, v) :: rest else (k', v') :: setA k v rest

/-- Insert into a set modelled as a duplicate-free list (a Go map-as-set
write `m[x] = struct\x7b\x7d()`). -/
def insertElem {α : Type} [DecidableEq α] (x : α) (l : List α) : List α :=
  if x ∈ l then l else l ++ [x]

/-- Replace the element at an index by applying `f` (mutation through a Go
pointer into a slice). Out-of-range indices leave the list unchanged. -/
def updateAt {α : Type} : List α → Nat → (α → α) → List α
  | [], _, _ => []
  | x :: xs, 0, f => f x :: xs
  | x :: xs, n + 1, f => x :: updateAt xs n f

/-- Lexicographic comparison of two lists over a linear order, as a Bool.
Models the ordering `sort.Strings` uses on the underlying characters
(UTF-8 preserves code-point order, so byte order and code-point order
agree). -/
def lexLe {α : Type} [LinearOrder α] : List α → List α → Bool
  | [], _ => true
  | _ :: _, [] => false
  | a :: as, b :: bs =>
      if a < b then true else if b < a then false else lexLe as bs

theorem lexLe_total {α : Type} [LinearOrder α] :
    ∀ x y : List α, lexLe x y = true ∨ lexLe y x = true
  | [], _ => Or.inl rfl
  | _ :: _, [] => Or.inr rfl
  | a :: as, b :: bs => by
      rcases lt_trichotomy a b with h | h | h
      · left
        simp [lexLe, h]
      · subst h
        rcases lexLe_total as bs with h' | h'
        · left
          simp [lexLe, h']
        · right
          simp [lexLe, h']
      · right
        simp [lexLe, h]

theorem lexLe_trans {α : Type} [LinearOrder α] :
    ∀ x y z : List α, lexLe x y = true → lexLe y z = true → lexLe x z = true
  | [], _, _, _, _ => rfl
  | _ :: _, [], _, h1, _ => by simp [lexLe] at h1
  | _ :: _, _ :: _, [], _, h2 => by simp [lexLe] at h2
  | a :: as, b :: bs, c :: cs, h1, h2 => by
      simp only [lexLe] at h1 h2 ⊢
      rcases lt_trichotomy a b with hab | hab | hab
      · rcases lt_trichotomy b c with hbc | hbc | hbc
        · simp [lt_trans hab hbc]
        · subst hbc
          simp [hab]
        · rw [if_neg (asymm hbc), if_pos hbc] at h2
          cases h2
      · subst hab
        rcases lt_trichotomy a c with hbc | hbc | hbc
        · simp [hbc]
        · subst hbc
          rw [if_neg (lt_irrefl a), if_neg (lt_irrefl a)] at h1 h2 ⊢
          exact lexLe_trans as bs cs h1 h2
        · rw [if_neg (asymm hbc), if_pos hbc] at h2
          cases h2
      · rw [if_neg (asymm hab), if_pos hab] at h1
        cases h1

/-- The string order used by the model's sorts: lexicographic on the
character sequence (what `sort.Strings` computes for the identifiers at
hand). -/
def strLe (a b : String) : Prop :=
  lexLe a.data b.data = true

instance : DecidableRel strLe :=
  fun a b => inferInstanceAs (Decidable (lexLe a.data b.data = true))

instance : IsTotal String strLe :=
  ⟨fun a b => lexLe_total a.data b.data⟩

instance : IsTrans String strLe :=
  ⟨fun a b c => lexLe_trans a.data b.data c.data⟩

/-- The three candidate replacement types: `lbType` in the source. -/
inductive lbType : Type
  | ALB
  | NLB
  | ELB
deriving DecidableEq

/-- `LB` from the source: an ALB or NLB (or retained ELB) that can replace
one or more ELBs.  `ports` and `securityGroups` are Go map-as-set fields. -/
structure LB where
  elbs : List String
  ports : List Int
  securityGroups : List String
deriving DecidableEq

/-- `listenerPorts` from the source. -/
def listenerPorts (listeners : List Listener) : List Int :=
  listeners.map (fun ld => ld.port)

/-- `LB.addPorts` from the source: insert each port not already present. -/
def LB.addPorts (lb : LB) (ports : List Int) : LB :=
  { lb with ports := ports.foldl (fun acc p => insertElem p acc) lb.ports }

/-- `LB.addSecurityGroups` from the source. -/
def LB.addSecurityGroups (lb : LB) (sgs : List String) : LB :=
  { lb with securityGroups := sgs.foldl (fun acc g => insertElem g acc) lb.securityGroups }

/-- `LB.replaceELB` from the source: record the ELB's name, expose its
listener ports and adopt its security groups. -/
def LB.replaceELB (lb : LB) (e : LoadBalancerDescription) : LB :=
  (({ lb with elbs := lb.elbs ++ [e.loadBalancerName] }).addPorts
      (listenerPorts e.listenerDescriptions)).addSecurityGroups e.securityGroups

/-- `newLB` from the source. -/
def newLB (e : LoadBalancerDescription) : LB :=
  LB.replaceELB { elbs := [], ports := [], securityGroups := [] } e

/-- `LB.hasPortCollision` from the source: does any listener port of the
ELB already belong to this LB's port set? -/
def LB.hasPortCollision (lb : LB) (e : LoadBalancerDescription) : Bool :=
  e.listenerDescriptions.any (fun ld => decide (ld.port ∈ lb.ports))

/-- `LB.ELBs` from the source. -/
def LB.ELBs (lb : LB) : List String :=
  lb.elbs

/-- `LB.Ports` from the source: the port set sorted ascending, each port
formatted as a string (`strconv.Itoa`). -/
def LB.Ports (lb : LB) : List String :=
  ((List.insertionSort (· ≤ ·) lb.ports).map (fun i => toString i))

/-- `LB.SecurityGroups` from the source: the security-group set sorted
lexicographically. -/
def LB.SecurityGroups (lb : LB) : List String :=
  List.insertionSort strLe lb.securityGroups

/-- `recommendation` from the source: per tier, the sorted subnets (filled
in at output time) and the three CLB lists with their by-security-group
indices.  A `Nat` in a `...BySg` map is the index of an `LB` in the
corresponding list (the Go code stores a pointer). -/
structure Recommendation where
  subnets : List String
  albs : List LB
  albsBySg : List (String × Nat)
  nlbs : List LB
  nlbsBySg : List (String × Nat)
  elbs : List LB
  elbsBySg : List (String × Nat)
deriving DecidableEq

/-- `newRecommendation` from the source. -/
def newRecommendation : Recommendation :=
  { subnets := [], albs := [], albsBySg := [], nlbs := [], nlbsBySg := [],
    elbs := [], elbsBySg := [] }

/-- `associateALBWithSecurityGroups` / `associateNLBWithSecurityGroups` /
`associateELBWithSecurityGroups` from the source, index form: map every
listed security group to the given CLB. -/
def associateIdx (bySg : List (String × Nat)) (idx : Nat) (sgs : List String) :
    List (String × Nat) :=
  sgs.foldl (fun m g => setA g idx m) bySg

/-- `tier` from the source: a set of subnets owning one recommendation. -/
structure Tier where
  subnets : List String
  recommendation : Recommendation
deriving DecidableEq

/-- `tier.add` from the source. -/
def Tier.add (t : Tier) (s : String) : Tier :=
  { t with subnets := insertElem s t.subnets }

/-- `tier.keys` from the source: the subnet set, sorted. -/
def Tier.keys (t : Tier) : List String :=
  List.insertionSort strLe t.subnets

/-- A placeholder for out-of-range index reads; never reached on states
produced by the engine (Go stores always-valid pointers). -/
def dummyLB : LB :=
  { elbs := [], ports := [], securityGroups := [] }

/-- A placeholder tier for out-of-range index reads; never reached on
states produced by the engine. -/
def dummyTier : Tier :=
  { subnets := [], recommendation := newRecommendation }

/-- `tiers` from the source: the discovered tiers (in creation order), the
subnet-to-tier index, and the security-group input map.  The memoization
cache `ingressesBySg` is omitted (see the module comment). -/
structure Tiers where
  tiersBySubnet : List (String × Nat)
  tiers : List Tier
  securityGroups : List (String × SecurityGroup)
deriving DecidableEq

/-- `newTiers` from the source. -/
def newTiers (sgs : List (String × SecurityGroup)) : Tiers :=
  { tiersBySubnet := [], tiers := [], securityGroups := sgs }

/-- `tiers.associate` from the source: add the subnet to the tier and point
the subnet index at it (overwriting any previous owner). -/
def Tiers.associate (ts : Tiers) (tierIdx : Nat) (s : String) : Tiers :=
  { ts with
    tiers := updateAt ts.tiers tierIdx (fun t => t.add s),
    tiersBySubnet := setA s tierIdx ts.tiersBySubnet }

/-- `tiers.addTierFor` from the source: allocate a fresh tier (with a fresh
recommendation), associate the subnet with it, append it. -/
def Tiers.addTierFor (ts : Tiers) (s : String) : Nat × Tiers :=
  let idx := ts.tiers.length
  let ts' : Tiers := { ts with tiers := ts.tiers ++ [{ subnets := [], recommendation := newRecommendation }] }
  (idx, ts'.associate idx s)

/-- `tiers.find` from the source: the tier of a subnet, created on demand. -/
def Tiers.find (ts : Tiers) (s : String) : Nat × Tiers :=
  match lookupA s ts.tiersBySubnet with
  | some idx => (idx, ts)
  | none => ts.addTierFor s

/-- `tiers.findOrGetIngress` from the source, without the (unobservable)
cache: flatten every permission's CIDR ranges of the group into a set.
`none` models the nil-pointer panic when the group id has no entry. -/
def findOrGetIngress (sgs : List (String × SecurityGroup)) (g : String) :
    Option (List String) :=
  match lookupA g sgs with
  | none => none
  | some sg =>
      some (sg.ipPermissions.foldl
        (fun acc perm => perm.foldl (fun a c => insertElem c a) acc) [])

/-- Key-set equality of two Go `map[string]bool` values all of whose values
are `true`: what `reflect.DeepEqual` computes for the two ingress caches. -/
def sameKeySet (l1 l2 : List String) : Bool :=
  l1.all (fun x => decide (x ∈ l2)) && l2.all (fun x => decide (x ∈ l1))

/-- `tiers.hasSameIngress` from the source: exact equality of the two
flattened ingress range sets. -/
def hasSameIngress (sgs : List (String × SecurityGroup)) (g1 g2 : String) :
    Option Bool :=
  match findOrGetIngress sgs g1 with
  | none => none
  | some i1 =>
      match findOrGetIngress sgs g2 with
      | none => none
      | some i2 => some (sameKeySet i1 i2)

/-- `tiers.recommendations` from the source: one record per tier, in tier
creation order, with the subnet set sorted into the `subnets` field. -/
def Tiers.recommendations (ts : Tiers) : List Recommendation :=
  ts.tiers.map (fun t => { t.recommendation with subnets := t.keys })

/-- `assignTier` from the source: the tier of the first subnet (created on
demand); every later subnet is force-associated with that tier.  Returns
the tier's index (the Go code returns the tier's recommendation pointer);
`none` models the nil dereference when the subnet list is empty. -/
def assignTier (ts : Tiers) (lb : LoadBalancerDescription) : Option (Nat × Tiers) :=
  match lb.subnets with
  | [] => none
  | s :: rest =>
      let p := ts.find s
      some (p.1, rest.foldl (fun acc s' => acc.associate p.1 s') p.2)

/-- The body of the `switch` in `inspectListeners`: one step of building the
`protocols` set. -/
def addProtocol (acc : List String) (ld : Listener) : List String :=
  if ld.protocol = "HTTP" ∨ ld.protocol = "HTTPS" then insertElem "HTTP" acc
  else if ld.protocol = "TCP" then
    if ld.port = 80 ∨ ld.port = 443 then insertElem "HTTP" acc
    else insertElem "TCP" acc
  else acc

/-- The `protocols` set built by `inspectListeners`. -/
def protocolsOf (lb : LoadBalancerDescription) : List String :=
  lb.listenerDescriptions.foldl addProtocol []

/-- `inspectListeners` from the source.  `none` models
`panic("No known protocols for this listener")`. -/
def inspectListeners (lb : LoadBalancerDescription) : Option lbType :=
  match (protocolsOf lb).length with
  | 0 => none
  | 1 => if "HTTP" ∈ protocolsOf lb then some lbType.ALB else some lbType.NLB
  | _ + 2 => some lbType.ELB

/-- The inner loop of `addELBv2` (`for seenSg := range existingELBv2sBySg`):
scan already-indexed security groups, in the order given by the enumeration
`ord`, for one with the same ingress as `g` whose CLB the port rule permits.
`none` models a panic inside `hasSameIngress`; `some none` means no match. -/
def scanSeen (sgs : List (String × SecurityGroup)) (lb : LoadBalancerDescription)
    (allow : Bool) (fam : List LB) (g : String) :
    List (String × Nat) → Option (Option Nat)
  | [] => some none
  | (seenSg, idx) :: rest =>
      match hasSameIngress sgs seenSg g with
      | none => none
      | some b =>
          if b then
            if allow || !((fam.getD idx dummyLB).hasPortCollision lb) then
              some (some idx)
            else scanSeen sgs lb allow fam g rest
          else scanSeen sgs lb allow fam g rest

/-- The outer loop of `addELBv2` (`for _, lbSecurityGroup := range
lb.SecurityGroups`): try a direct index hit for each of the load balancer's
security groups, falling back to the ingress-equivalence scan. -/
def findExisting (sgs : List (String × SecurityGroup)) (lb : LoadBalancerDescription)
    (allow : Bool) (fam : List LB) (bySg ord : List (String × Nat)) :
    List String → Option (Option Nat)
  | [] => some none
  | g :: rest =>
      match lookupA g bySg with
      | some idx =>
          if allow || !((fam.getD idx dummyLB).hasPortCollision lb) then
            some (some idx)
          else
            match scanSeen sgs lb allow fam g ord with
            | none => none
            | some (some idx') => some (some idx')
            | some none => findExisting sgs lb allow fam bySg ord rest
      | none =>
          match scanSeen sgs lb allow fam g ord with
          | none => none
          | some (some idx') => some (some idx')
          | some none => findExisting sgs lb allow fam bySg ord rest

/-- `addELBv2` from the source, acting on one CLB family (`fam` is the CLB
list the `add` callback appends to, `bySg` the index the `associate`
callback writes).  `scanOrder` chooses the enumeration of `bySg` used by
the map scan; Go leaves that order unspecified. -/
def addELBv2 (sgs : List (String × SecurityGroup))
    (scanOrder : List (String × Nat) → List (String × Nat))
    (lb : LoadBalancerDescription) (firstELBv2 allow : Bool)
    (fam : List LB) (bySg : List (String × Nat)) :
    Option (List LB × List (String × Nat)) :=
  if firstELBv2 then
    some (fam ++ [newLB lb], associateIdx bySg fam.length lb.securityGroups)
  else
    match findExisting sgs lb allow fam bySg (scanOrder bySg) lb.securityGroups with
    | none => none
    | some (some idx) =>
        some (updateAt fam idx (fun clb => clb.replaceELB lb),
          associateIdx bySg idx lb.securityGroups)
    | some none =>
        some (fam ++ [newLB lb], associateIdx bySg fam.length lb.securityGroups)

/-- `elbDrop` from the source: assign the tier, classify the listeners,
place the load balancer in the tier's CLB family of the chosen type. -/
def elbDrop (scanOrder : List (String × Nat) → List (String × Nat))
    (ts : Tiers) (lb : LoadBalancerDescription) : Option Tiers :=
  match assignTier ts lb with
  | none => none
  | some (tIdx, ts1) =>
      match inspectListeners lb with
      | none => none
      | some target =>
          let r := (ts1.tiers.getD tIdx dummyTier).recommendation
          match target with
          | lbType.ALB =>
              match addELBv2 ts1.securityGroups scanOrder lb
                  (r.albs.length == 0) true r.albs r.albsBySg with
              | none => none
              | some (lbs', bySg') =>
                  let f := fun t => { t with recommendation :=
                    { t.recommendation with albs := lbs', albsBySg := bySg' } }
                  some { ts1 with tiers := updateAt ts1.tiers tIdx f }
          | lbType.NLB =>
              match addELBv2 ts1.securityGroups scanOrder lb
                  (r.nlbs.length == 0) false r.nlbs r.nlbsBySg with
              | none => none
              | some (lbs', bySg') =>
                  let f := fun t => { t with recommendation :=
                    { t.recommendation with nlbs := lbs', nlbsBySg := bySg' } }
                  some { ts1 with tiers := updateAt ts1.tiers tIdx f }
          | lbType.ELB =>
              match addELBv2 ts1.securityGroups scanOrder lb
                  (r.elbs.length == 0) false r.elbs r.elbsBySg with
              | none => none
              | some (lbs', bySg') =>
                  let f := fun t => { t with recommendation :=
                    { t.recommendation with elbs := lbs', elbsBySg := bySg' } }
                  some { ts1 with tiers := updateAt ts1.tiers tIdx f }

/-- The loop of `generateRecommendations`: drop every load balancer in input
order; a panic anywhere aborts the run. -/
def dropAll (scanOrder : List (String × Nat) → List (String × Nat)) :
    Tiers → List LoadBalancerDescription → Option Tiers
  | ts, [] => some ts
  | ts, lb :: rest =>
      match elbDrop scanOrder ts lb with
      | none => none
      | some ts' => dropAll scanOrder ts' rest

/-- `generateRecommendations` from the source, with the map-scan enumeration
order as an explicit parameter. -/
def generateRecommendationsOrd (scanOrder : List (String × Nat) → List (String × Nat))
    (elbs : List LoadBalancerDescription) (sgs : List (String × SecurityGroup)) :
    Option (List Recommendation) :=
  match dropAll scanOrder (newTiers sgs) elbs with
  | none => none
  | some ts => some ts.recommendations

/-- `generateRecommendations` from the source, scanning `existingELBv2sBySg`
in insertion order (one admissible choice for Go's unspecified map order). -/
def generateRecommendations (elbs : List LoadBalancerDescription)
    (sgs : List (String × SecurityGroup)) : Option (List Recommendation) :=
  generateRecommendationsOrd (fun l => l) elbs sgs

/-- `sum` from the source (named `CountSum` here to avoid clashing with the
library): the number of CLBs of a family and of original ELBs they replace. -/
structure CountSum where
  elbs : Nat
  lbs : Nat
deriving DecidableEq

/-- `count` from the source. -/
def count (lbs : List LB) : CountSum :=
  { elbs := lbs.foldl (fun a lb => a + lb.ELBs.length) 0, lbs := lbs.length }

/-- `saving` from the source, with `float64` modelled by exact rationals
(`0.9 = 9/10`). -/
def saving (current alb nlb elb : Nat) : ℚ :=
  (((current : ℚ)) - (((alb : ℚ) + (nlb : ℚ)) * (9 / 10) + (elb : ℚ))) / (current : ℚ) * 100

/-- The accumulation loop of `printRecommendations`: total replaced ELBs and
total ALB/NLB/ELB CLB counts across all recommendations. -/
def totals (recs : List Recommendation) : Nat × Nat × Nat × Nat :=
  recs.foldl
    (fun acc r =>
      (acc.1 + (count r.albs).elbs + (count r.nlbs).elbs + (count r.elbs).elbs,
       acc.2.1 + (count r.albs).lbs,
       acc.2.2.1 + (count r.nlbs).lbs,
       acc.2.2.2 + (count r.elbs).lbs))
    (0, 0, 0, 0)

/-- The savings figure printed by `printRecommendations`. -/
def overallSaving (recs : List Recommendation) : ℚ :=
  saving (totals recs).1 (totals recs).2.1 (totals recs).2.2.1 (totals recs).2.2.2

/-- The replaced-ELB names recorded in a recommendation, across its three
CLB families. -/
def recNames (r : Recommendation) : List String :=
  (r.albs ++ r.nlbs ++ r.elbs).flatMap LB.elbs

/-- All replaced-ELB names across an output. -/
def allNames (recs : List Recommendation) : List String :=
  recs.flatMap recNames

/-- All replaced-ELB names in an engine state. -/
def stateNames (ts : Tiers) : List String :=
  ts.tiers.flatMap (fun t => recNames t.recommendation)

/-- All CLBs of a recommendation. -/
def recCLBs (r : Recommendation) : List LB :=
  r.albs ++ r.nlbs ++ r.elbs

/-! ### Basic lemmas about the container helpers -/

theorem mem_insertElem {α : Type} [DecidableEq α] (x y : α) (l : List α) :
    y ∈ insertElem x l ↔ y = x ∨ y ∈ l := by
  unfold insertElem
  by_cases h : x ∈ l
  · simp only [if_pos h]
    constructor
    · exact Or.inr
    · rintro (rfl | hy)
      · exact h
      · exact hy
  · simp only [if_neg h, List.mem_append, List.mem_singleton]
    tauto

theorem nodup_insertElem {α : Type} [DecidableEq α] (x : α) (l : List α)
    (h : l.Nodup) : (insertElem x l).Nodup := by
  by_cases hx : x ∈ l
  · simpa [insertElem, hx] using h
  · have hres : (l ++ [x]).Nodup := by
      refine List.Nodup.append h (by simp) ?_
      intro a ha hax
      rw [List.mem_singleton] at hax
      subst hax
      exact hx ha
    simpa [insertElem, hx] using hres

theorem mem_foldl_insertElem {α : Type} [DecidableEq α] (L acc : List α) (y : α) :
    y ∈ L.foldl (fun a x => insertElem x a) acc ↔ y ∈ acc ∨ y ∈ L := by
  induction L generalizing acc with
  | nil => simp
  | cons z L ih =>
      simp only [List.foldl_cons, ih, mem_insertElem, List.mem_cons]
      tauto

theorem nodup_foldl_insertElem {α : Type} [DecidableEq α] (L acc : List α)
    (h : acc.Nodup) : (L.foldl (fun a x => insertElem x a) acc).Nodup := by
  induction L generalizing acc with
  | nil => simpa
  | cons z L ih => exact ih _ (nodup_insertElem _ _ h)

theorem lookupA_setA {α : Type} (k k' : String) (v : α) (l : List (String × α)) :
    lookupA k' (setA k v l) = if k = k' then some v else lookupA k' l := by
  induction l with
  | nil => by_cases h : k = k' <;> simp [setA, lookupA, h]
  | cons p rest ih =>
      obtain ⟨a, b⟩ := p
      by_cases hak : a = k
      · subst hak
        by_cases hk' : a = k' <;> simp [setA, lookupA, hk']
      · by_cases hk' : a = k'
        · subst hk'
          have hk : ¬ (k = a) := fun h => hak h.symm
          simp [setA, lookupA, hak, hk]
        · simp [setA, lookupA, hak, hk', ih]

theorem setA_cons_eq {α : Type} (k : String) (v : α) (a : String) (b : α)
    (rest : List (String × α)) (h : a = k) :
    setA k v ((a, b) :: rest) = (k, v) :: rest := by
  simp [setA, h]

theorem setA_cons_ne {α : Type} (k : String) (v : α) (a : String) (b : α)
    (rest : List (String × α)) (h : ¬ a = k) :
    setA k v ((a, b) :: rest) = (a, b) :: setA k v rest := by
  simp [setA, h]

theorem setA_mem {α : Type} (k : String) (v : α) (l : List (String × α)) (p : String × α)
    (h : p ∈ setA k v l) : p = (k, v) ∨ p ∈ l := by
  induction l with
  | nil =>
      simp [setA] at h
      exact Or.inl h
  | cons q rest ih =>
      obtain ⟨a, b⟩ := q
      by_cases ha : a = k
      · rw [setA_cons_eq k v a b rest ha] at h
        rcases List.mem_cons.mp h with h' | h'
        · exact Or.inl h'
        · exact Or.inr (List.mem_cons_of_mem _ h')
      · rw [setA_cons_ne k v a b rest ha] at h
        rcases List.mem_cons.mp h with h' | h'
        · exact Or.inr (by simp [h'])
        · rcases ih h' with h'' | h''
          · exact Or.inl h''
          · exact Or.inr (List.mem_cons_of_mem _ h'')

theorem lookupA_mem {α : Type} (k : String) (l : List (String × α)) (v : α)
    (h : lookupA k l = some v) : (k, v) ∈ l := by
  induction l with
  | nil => simp [lookupA] at h
  | cons p rest ih =>
      obtain ⟨a, b⟩ := p
      by_cases ha : a = k
      · subst ha
        simp [lookupA] at h
        simp [h]
      · simp [lookupA, ha] at h
        exact List.mem_cons_of_mem _ (ih h)

theorem associateIdx_mem (bySg : List (String × Nat)) (idx : Nat) (sgs : List String)
    (p : String × Nat) (h : p ∈ associateIdx bySg idx sgs) : p.2 = idx ∨ p ∈ bySg := by
  induction sgs generalizing bySg with
  | nil => exact Or.inr h
  | cons g rest ih =>
      rcases ih _ h with h' | h'
      · exact Or.inl h'
      · rcases setA_mem _ _ _ _ h' with h'' | h''
        · exact Or.inl (by simp [h''])
        · exact Or.inr h''

theorem updateAt_length {α : Type} (l : List α) (i : Nat) (f : α → α) :
    (updateAt l i f).length = l.length := by
  induction l generalizing i with
  | nil => simp [updateAt]
  | cons x xs ih =>
      cases i with
      | zero => simp [updateAt]
      | succ n => simp [updateAt, ih]

theorem updateAt_eq_append {α : Type} (l : List α) (i : Nat) (f : α → α) (d : α)
    (h : i < l.length) :
    updateAt l i f = l.take i ++ f (l.getD i d) :: l.drop (i + 1) := by
  induction l generalizing i with
  | nil => simp at h
  | cons x xs ih =>
      cases i with
      | zero => simp [updateAt]
      | succ n =>
          simp only [updateAt, List.take_succ_cons, List.drop_succ_cons, List.cons_append]
          rw [ih n (by simpa using h)]
          rfl

theorem take_getD_drop {α : Type} (l : List α) (i : Nat) (d : α) (h : i < l.length) :
    l = l.take i ++ l.getD i d :: l.drop (i + 1) := by
  induction l generalizing i with
  | nil => simp at h
  | cons x xs ih =>
      cases i with
      | zero => simp
      | succ n =>
          have h' : n < xs.length := by simpa using h
          simp only [List.take_succ_cons, List.drop_succ_cons, List.cons_append,
            List.getD_cons_succ]
          exact congrArg (List.cons x) (ih n h')

theorem map_updateAt {α β : Type} (g : α → β) (l : List α) (i : Nat) (f : α → α)
    (h : ∀ x, g (f x) = g x) : (updateAt l i f).map g = l.map g := by
  induction l generalizing i with
  | nil => rfl
  | cons x xs ih =>
      cases i with
      | zero => simp [updateAt, h]
      | succ n => simp [updateAt, ih]

theorem perm_snoc_mid {α : Type} (X Y Z : List α) (a : α) :
    (X ++ (Y ++ [a]) ++ Z).Perm ((X ++ Y ++ Z) ++ [a]) := by
  have h1 : (X ++ (Y ++ [a]) ++ Z) = X ++ (Y ++ ([a] ++ Z)) := by simp
  have h2 : ((X ++ Y ++ Z) ++ [a]) = X ++ (Y ++ (Z ++ [a])) := by simp
  rw [h1, h2]
  exact List.Perm.append_left X (List.Perm.append_left Y List.perm_append_comm)

/-! ### Sortedness of the sorting calls used for output -/

theorem sorted_lt_of_le_nodup {α : Type} [LinearOrder α] {l : List α}
    (hs : List.Sorted (· ≤ ·) l) (hn : l.Nodup) : List.Sorted (· < ·) l :=
  (List.Pairwise.and hs hn).imp (fun h => lt_of_le_of_ne h.1 h.2)

/-! ### Ingress flattening and equivalence -/

theorem mem_flatten_foldl (perms : List (List String)) (init : List String) (x : String) :
    x ∈ perms.foldl (fun acc perm => perm.foldl (fun a c => insertElem c a) acc) init
      ↔ x ∈ init ∨ ∃ perm ∈ perms, x ∈ perm := by
  induction perms generalizing init with
  | nil => simp
  | cons p rest ih =>
      simp only [List.foldl_cons, ih, mem_foldl_insertElem, List.mem_cons]
      constructor
      · rintro ((h | h) | ⟨perm, hp, hx⟩)
        · exact Or.inl h
        · exact Or.inr ⟨p, Or.inl rfl, h⟩
        · exact Or.inr ⟨perm, Or.inr hp, hx⟩
      · rintro (h | ⟨perm, (rfl | hp), hx⟩)
        · exact Or.inl (Or.inl h)
        · exact Or.inl (Or.inr hx)
        · exact Or.inr ⟨perm, hp, hx⟩

theorem findOrGetIngress_none_iff (sgs : List (String × SecurityGroup)) (g : String) :
    findOrGetIngress sgs g = none ↔ lookupA g sgs = none := by
  unfold findOrGetIngress
  cases lookupA g sgs <;> simp

theorem findOrGetIngress_mem (sgs : List (String × SecurityGroup)) (g : String)
    (sg : SecurityGroup) (hl : lookupA g sgs = some sg) (x : String) :
    x ∈ (findOrGetIngress sgs g).getD [] ↔ ∃ perm ∈ sg.ipPermissions, x ∈ perm := by
  simp [findOrGetIngress, hl, mem_flatten_foldl]

theorem sameKeySet_iff (l1 l2 : List String) :
    sameKeySet l1 l2 = true ↔ (∀ x, x ∈ l1 ↔ x ∈ l2) := by
  unfold sameKeySet
  simp only [Bool.and_eq_true, List.all_eq_true, decide_eq_true_eq]
  constructor
  · rintro ⟨h1, h2⟩ x
    exact ⟨fun hx => h1 x hx, fun hx => h2 x hx⟩
  · intro h
    exact ⟨fun x hx => (h x).mp hx, fun x hx => (h x).mpr hx⟩

theorem hasSameIngress_some (sgs : List (String × SecurityGroup)) (g1 g2 : String)
    (r1 r2 : List String) (h1 : findOrGetIngress sgs g1 = some r1)
    (h2 : findOrGetIngress sgs g2 = some r2) :
    hasSameIngress sgs g1 g2 = some (sameKeySet r1 r2) := by
  simp [hasSameIngress, h1, h2]

theorem hasSameIngress_none_left (sgs : List (String × SecurityGroup)) (g1 g2 : String)
    (h : lookupA g1 sgs = none) : hasSameIngress sgs g1 g2 = none := by
  have h1 : findOrGetIngress sgs g1 = none := (findOrGetIngress_none_iff sgs g1).mpr h
  simp [hasSameIngress, h1]

theorem hasSameIngress_none_right (sgs : List (String × SecurityGroup)) (g1 g2 : String)
    (h : lookupA g2 sgs = none) : hasSameIngress sgs g1 g2 = none := by
  have h2 : findOrGetIngress sgs g2 = none := (findOrGetIngress_none_iff sgs g2).mpr h
  unfold hasSameIngress
  cases hfg : findOrGetIngress sgs g1 <;> simp [h2]

/-! ### Failure propagation: a panic anywhere aborts the whole run -/

theorem elbDrop_none_of_inspect_none
    (scanOrder : List (String × Nat) → List (String × Nat)) (ts : Tiers)
    (lb : LoadBalancerDescription) (h : inspectListeners lb = none) :
    elbDrop scanOrder ts lb = none := by
  unfold elbDrop
  cases hat : assignTier ts lb with
  | none => rfl
  | some p => simp [h]

theorem dropAll_none_of_mem (scanOrder : List (String × Nat) → List (String × Nat))
    (lbs : List LoadBalancerDescription) (ts : Tiers) (lb : LoadBalancerDescription)
    (hmem : lb ∈ lbs) (h : ∀ ts', elbDrop scanOrder ts' lb = none) :
    dropAll scanOrder ts lbs = none := by
  induction lbs generalizing ts with
  | nil => simp at hmem
  | cons x rest ih =>
      rcases List.mem_cons.mp hmem with rfl | hmem'
      · unfold dropAll
        rw [h ts]
      · unfold dropAll
        cases hx : elbDrop scanOrder ts x with
        | none => rfl
        | some ts' => exact ih ts' hmem'

/-! ### Listener classification -/

/-- The per-listener category assignment described by the specification:
HTTP or HTTPS, and TCP on port 80 or 443, give category HTTP; TCP on any
other port gives category TCP; other protocols give no category.  This is
the specification-side rendering of the `switch` in `inspectListeners`. -/
def listenerCategory (ld : Listener) : Option String :=
  if ld.protocol = "HTTP" ∨ ld.protocol = "HTTPS" then some "HTTP"
  else if ld.protocol = "TCP" then
    some (if ld.port = 80 ∨ ld.port = 443 then "HTTP" else "TCP")
  else none

/-- The load balancer has a listener of category HTTP. -/
def hasHTTPCategory (lb : LoadBalancerDescription) : Prop :=
  ∃ ld ∈ lb.listenerDescriptions, listenerCategory ld = some "HTTP"

/-- The load balancer has a listener of category TCP. -/
def hasTCPCategory (lb : LoadBalancerDescription) : Prop :=
  ∃ ld ∈ lb.listenerDescriptions, listenerCategory ld = some "TCP"

theorem addProtocol_eq (acc : List String) (ld : Listener) :
    addProtocol acc ld = match listenerCategory ld with
      | some c => insertElem c acc
      | none => acc := by
  unfold addProtocol listenerCategory
  by_cases h1 : ld.protocol = "HTTP" ∨ ld.protocol = "HTTPS"
  · simp [h1]
  · by_cases h2 : ld.protocol = "TCP"
    · by_cases h3 : ld.port = 80 ∨ ld.port = 443 <;> simp [h1, h2, h3]
    · simp [h1, h2]

theorem listenerCategory_cases (ld : Listener) (c : String)
    (h : listenerCategory ld = some c) : c = "HTTP" ∨ c = "TCP" := by
  unfold listenerCategory at h
  by_cases h1 : ld.protocol = "HTTP" ∨ ld.protocol = "HTTPS"
  · simp [h1] at h
    exact Or.inl h.symm
  · by_cases h2 : ld.protocol = "TCP"
    · by_cases h3 : ld.port = 80 ∨ ld.port = 443 <;> simp [h1, h2, h3] at h
      · exact Or.inl h.symm
      · exact Or.inr h.symm
    · simp [h1, h2] at h

theorem mem_protocols_foldl (L : List Listener) (acc : List String) (c : String) :
    c ∈ L.foldl addProtocol acc ↔ c ∈ acc ∨ ∃ ld ∈ L, listenerCategory ld = some c := by
  induction L generalizing acc with
  | nil => simp
  | cons z L ih =>
      simp only [List.foldl_cons, ih, addProtocol_eq, List.mem_cons]
      cases hz : listenerCategory z with
      | none =>
          constructor
          · rintro (h | ⟨ld, hld, hc⟩)
            · exact Or.inl h
            · exact Or.inr ⟨ld, Or.inr hld, hc⟩
          · rintro (h | ⟨ld, (rfl | hld), hc⟩)
            · exact Or.inl h
            · rw [hz] at hc
              cases hc
            · exact Or.inr ⟨ld, hld, hc⟩
      | some c' =>
          simp only [mem_insertElem]
          constructor
          · rintro ((rfl | h) | ⟨ld, hld, hc⟩)
            · exact Or.inr ⟨z, Or.inl rfl, hz⟩
            · exact Or.inl h
            · exact Or.inr ⟨ld, Or.inr hld, hc⟩
          · rintro (h | ⟨ld, (rfl | hld), hc⟩)
            · exact Or.inl (Or.inr h)
            · rw [hz] at hc
              exact Or.inl (Or.inl (Option.some.inj hc).symm)
            · exact Or.inr ⟨ld, hld, hc⟩

theorem nodup_protocols_foldl (L : List Listener) (acc : List String)
    (h : acc.Nodup) : (L.foldl addProtocol acc).Nodup := by
  induction L generalizing acc with
  | nil => simpa
  | cons z L ih =>
      simp only [List.foldl_cons, addProtocol_eq]
      cases listenerCategory z with
      | none => exact ih _ h
      | some c => exact ih _ (nodup_insertElem _ _ h)

theorem mem_protocolsOf (lb : LoadBalancerDescription) (c : String) :
    c ∈ protocolsOf lb ↔ ∃ ld ∈ lb.listenerDescriptions, listenerCategory ld = some c := by
  unfold protocolsOf
  rw [mem_protocols_foldl]
  simp

theorem protocolsOf_sub (lb : LoadBalancerDescription) (c : String)
    (h : c ∈ protocolsOf lb) : c = "HTTP" ∨ c = "TCP" := by
  rw [mem_protocolsOf] at h
  obtain ⟨ld, _, hc⟩ := h
  exact listenerCategory_cases ld c hc

theorem protocolsOf_nodup (lb : LoadBalancerDescription) : (protocolsOf lb).Nodup :=
  nodup_protocols_foldl _ _ List.nodup_nil

theorem eq_singleton_of_all_eq {α : Type} (l : List α) (a : α) (hn : l.Nodup)
    (hmem : a ∈ l) (hall : ∀ c ∈ l, c = a) : l = [a] := by
  cases l with
  | nil => cases hmem
  | cons x xs =>
      have hx : x = a := hall x (by simp)
      subst hx
      have hxs : xs = [] := by
        cases xs with
        | nil => rfl
        | cons y ys =>
            have hy : y = x := hall y (by simp)
            subst hy
            simp at hn
      simp [hxs]

theorem two_le_length_of_mem_ne {α : Type} (l : List α) (a b : α) (ha : a ∈ l)
    (hb : b ∈ l) (hab : a ≠ b) : 2 ≤ l.length := by
  cases l with
  | nil => cases ha
  | cons x xs =>
      cases xs with
      | nil =>
          simp at ha hb
          exact absurd (ha.trans hb.symm) hab
      | cons y ys => simp [Nat.succ_le_succ, Nat.succ_le_succ_iff]

theorem protocolsOf_eq_nil (lb : LoadBalancerDescription)
    (hH : ¬ hasHTTPCategory lb) (hT : ¬ hasTCPCategory lb) : protocolsOf lb = [] := by
  rw [List.eq_nil_iff_forall_not_mem]
  intro c hc
  rcases protocolsOf_sub lb c hc with rfl | rfl
  · exact hH ((mem_protocolsOf lb "HTTP").mp hc)
  · exact hT ((mem_protocolsOf lb "TCP").mp hc)

theorem protocolsOf_eq_http (lb : LoadBalancerDescription)
    (hH : hasHTTPCategory lb) (hT : ¬ hasTCPCategory lb) : protocolsOf lb = ["HTTP"] := by
  refine eq_singleton_of_all_eq _ _ (protocolsOf_nodup lb)
    ((mem_protocolsOf lb "HTTP").mpr hH) ?_
  intro c hc
  rcases protocolsOf_sub lb c hc with rfl | rfl
  · rfl
  · exact absurd ((mem_protocolsOf lb "TCP").mp hc) hT

theorem protocolsOf_eq_tcp (lb : LoadBalancerDescription)
    (hT : hasTCPCategory lb) (hH : ¬ hasHTTPCategory lb) : protocolsOf lb = ["TCP"] := by
  refine eq_singleton_of_all_eq _ _ (protocolsOf_nodup lb)
    ((mem_protocolsOf lb "TCP").mpr hT) ?_
  intro c hc
  rcases protocolsOf_sub lb c hc with rfl | rfl
  · exact absurd ((mem_protocolsOf lb "HTTP").mp hc) hH
  · rfl

theorem protocolsOf_length_two (lb : LoadBalancerDescription)
    (hH : hasHTTPCategory lb) (hT : hasTCPCategory lb) :
    ∃ m, (protocolsOf lb).length = m + 2 := by
  have h2 : 2 ≤ (protocolsOf lb).length :=
    two_le_length_of_mem_ne _ "HTTP" "TCP" ((mem_protocolsOf lb "HTTP").mpr hH)
      ((mem_protocolsOf lb "TCP").mpr hT) (by decide)
  obtain ⟨m, hm⟩ := Nat.le.dest h2
  exact ⟨m, by omega⟩

/-- C3: `inspectListeners` maps each listener to a category (HTTP/HTTPS, or
TCP on port 80/443, give HTTP; TCP on other ports gives TCP; other protocols
contribute nothing) and returns ALB exactly when the distinct category set is
{HTTP}, NLB exactly when it is {TCP}, ELB exactly when it contains
both; with no category at all it fails, and that failure aborts the whole
run (`generateRecommendations` returns `none`) rather than skipping the
record. -/
theorem c3_listener_classification :
    (∀ lb : LoadBalancerDescription,
      (inspectListeners lb = none ↔ ¬ hasHTTPCategory lb ∧ ¬ hasTCPCategory lb)
      ∧ (inspectListeners lb = some lbType.ALB ↔ hasHTTPCategory lb ∧ ¬ hasTCPCategory lb)
      ∧ (inspectListeners lb = some lbType.NLB ↔ hasTCPCategory lb ∧ ¬ hasHTTPCategory lb)
      ∧ (inspectListeners lb = some lbType.ELB ↔ hasHTTPCategory lb ∧ hasTCPCategory lb))
    ∧ (∀ (lbs : List LoadBalancerDescription) (sgs : List (String × SecurityGroup))
        (lb : LoadBalancerDescription), lb ∈ lbs →
        ¬ hasHTTPCategory lb → ¬ hasTCPCategory lb →
        generateRecommendations lbs sgs = none) := by
  have hchar : ∀ lb : LoadBalancerDescription,
      (inspectListeners lb = none ↔ ¬ hasHTTPCategory lb ∧ ¬ hasTCPCategory lb)
      ∧ (inspectListeners lb = some lbType.ALB ↔ hasHTTPCategory lb ∧ ¬ hasTCPCategory lb)
      ∧ (inspectListeners lb = some lbType.NLB ↔ hasTCPCategory lb ∧ ¬ hasHTTPCategory lb)
      ∧ (inspectListeners lb = some lbType.ELB ↔ hasHTTPCategory lb ∧ hasTCPCategory lb) := by
    intro lb
    by_cases hH : hasHTTPCategory lb <;> by_cases hT : hasTCPCategory lb
    · obtain ⟨m, hm⟩ := protocolsOf_length_two lb hH hT
      simp [inspectListeners, hm, hH, hT]
    · have hp := protocolsOf_eq_http lb hH hT
      simp [inspectListeners, hp, hH, hT]
    · have hp := protocolsOf_eq_tcp lb hT hH
      simp [inspectListeners, hp, hH, hT]
    · have hp := protocolsOf_eq_nil lb hH hT
      simp [inspectListeners, hp, hH, hT]
  refine ⟨hchar, ?_⟩
  intro lbs sgs lb hmem hH hT
  have hnone : inspectListeners lb = none := ((hchar lb).1).mpr ⟨hH, hT⟩
  have hdrop : dropAll (fun l => l) (newTiers sgs) lbs = none :=
    dropAll_none_of_mem _ lbs _ lb hmem
      (fun ts' => elbDrop_none_of_inspect_none _ ts' lb hnone)
  simp [generateRecommendations, generateRecommendationsOrd, hdrop]

/-! ### The security-group scan: which CLB a merge may target -/

theorem scanSeen_some (sgs : List (String × SecurityGroup)) (lb : LoadBalancerDescription)
    (allow : Bool) (fam : List LB) (g : String) (ord : List (String × Nat)) (idx : Nat)
    (h : scanSeen sgs lb allow fam g ord = some (some idx)) :
    ∃ k, (k, idx) ∈ ord ∧ hasSameIngress sgs k g = some true
      ∧ (allow = true ∨ (fam.getD idx dummyLB).hasPortCollision lb = false) := by
  induction ord with
  | nil => simp [scanSeen] at h
  | cons p rest ih =>
      obtain ⟨k, i⟩ := p
      unfold scanSeen at h
      cases hsi : hasSameIngress sgs k g with
      | none => rw [hsi] at h; cases h
      | some b =>
          rw [hsi] at h
          simp only [] at h
          by_cases hb : b = true
          · rw [if_pos hb] at h
            subst hb
            by_cases hperm : (allow || !((fam.getD i dummyLB).hasPortCollision lb)) = true
            · rw [if_pos hperm] at h
              obtain rfl : i = idx := Option.some.inj (Option.some.inj h)
              refine ⟨k, List.mem_cons_self _ _, hsi, ?_⟩
              rw [Bool.or_eq_true] at hperm
              rcases hperm with ha | hc
              · exact Or.inl ha
              · exact Or.inr (by simpa using hc)
            · rw [if_neg hperm] at h
              obtain ⟨k', hk', hrest⟩ := ih h
              exact ⟨k', List.mem_cons_of_mem _ hk', hrest⟩
          · rw [if_neg hb] at h
            obtain ⟨k', hk', hrest⟩ := ih h
            exact ⟨k', List.mem_cons_of_mem _ hk', hrest⟩

theorem findExisting_some (sgs : List (String × SecurityGroup))
    (lb : LoadBalancerDescription) (allow : Bool) (fam : List LB)
    (bySg ord : List (String × Nat)) (gs : List String) (idx : Nat)
    (h : findExisting sgs lb allow fam bySg ord gs = some (some idx)) :
    ∃ g ∈ gs,
      (lookupA g bySg = some idx
        ∧ (allow = true ∨ (fam.getD idx dummyLB).hasPortCollision lb = false))
      ∨ ∃ k, (k, idx) ∈ ord ∧ hasSameIngress sgs k g = some true
          ∧ (allow = true ∨ (fam.getD idx dummyLB).hasPortCollision lb = false) := by
  induction gs with
  | nil => simp [findExisting] at h
  | cons g rest ih =>
      unfold findExisting at h
      cases hlk : lookupA g bySg with
      | some i =>
          rw [hlk] at h
          simp only [] at h
          by_cases hperm : (allow || !((fam.getD i dummyLB).hasPortCollision lb)) = true
          · rw [if_pos hperm] at h
            obtain rfl : i = idx := Option.some.inj (Option.some.inj h)
            refine ⟨g, List.mem_cons_self _ _, Or.inl ⟨hlk, ?_⟩⟩
            rw [Bool.or_eq_true] at hperm
            rcases hperm with ha | hc
            · exact Or.inl ha
            · exact Or.inr (by simpa using hc)
          · rw [if_neg hperm] at h
            cases hsc : scanSeen sgs lb allow fam g ord with
            | none => rw [hsc] at h; cases h
            | some o =>
                rw [hsc] at h
                cases o with
                | some i' =>
                    simp only [] at h
                    obtain rfl : i' = idx := Option.some.inj (Option.some.inj h)
                    exact ⟨g, List.mem_cons_self _ _,
                      Or.inr (scanSeen_some sgs lb allow fam g ord _ hsc)⟩
                | none =>
                    simp only [] at h
                    obtain ⟨g', hg', hrest⟩ := ih h
                    exact ⟨g', List.mem_cons_of_mem _ hg', hrest⟩
      | none =>
          rw [hlk] at h
          simp only [] at h
          cases hsc : scanSeen sgs lb allow fam g ord with
          | none => rw [hsc] at h; cases h
          | some o =>
              rw [hsc] at h
              cases o with
              | some i' =>
                  simp only [] at h
                  obtain rfl : i' = idx := Option.some.inj (Option.some.inj h)
                  exact ⟨g, List.mem_cons_self _ _,
                    Or.inr (scanSeen_some sgs lb allow fam g ord _ hsc)⟩
              | none =>
                  simp only [] at h
                  obtain ⟨g', hg', hrest⟩ := ih h
                  exact ⟨g', List.mem_cons_of_mem _ hg', hrest⟩

/-! ### State invariants and name accounting -/

/-- The replaced-ELB names of one CLB family. -/
def famNames (fam : List LB) : List String :=
  fam.flatMap LB.elbs

/-- Every index stored in a by-security-group map points into the family. -/
def famOK (fam : List LB) (bySg : List (String × Nat)) : Prop :=
  ∀ p ∈ bySg, p.2 < fam.length

/-- Every CLB of the family has a duplicate-free port set. -/
def portsOK (fam : List LB) : Prop :=
  ∀ clb ∈ fam, clb.ports.Nodup

/-- Well-formedness of a recommendation's three families. -/
def recOK (r : Recommendation) : Prop :=
  famOK r.albs r.albsBySg ∧ famOK r.nlbs r.nlbsBySg ∧ famOK r.elbs r.elbsBySg
  ∧ portsOK r.albs ∧ portsOK r.nlbs ∧ portsOK r.elbs

/-- Well-formedness of the whole engine state. -/
def stateOK (ts : Tiers) : Prop :=
  (∀ p ∈ ts.tiersBySubnet, p.2 < ts.tiers.length)
  ∧ ∀ t ∈ ts.tiers, recOK t.recommendation

theorem getD_mem {α : Type} (l : List α) (i : Nat) (d : α) (h : i < l.length) :
    l.getD i d ∈ l := by
  induction l generalizing i with
  | nil => simp at h
  | cons x xs ih =>
      cases i with
      | zero => simp
      | succ n => exact List.mem_cons_of_mem _ (ih n (by simpa using h))

theorem mem_updateAt {α : Type} (l : List α) (i : Nat) (f : α → α) (d : α) (x : α)
    (hx : x ∈ updateAt l i f) : x ∈ l ∨ x = f (l.getD i d) := by
  induction l generalizing i with
  | nil => simp [updateAt] at hx
  | cons y ys ih =>
      cases i with
      | zero =>
          rcases List.mem_cons.mp hx with h | h
          · exact Or.inr h
          · exact Or.inl (List.mem_cons_of_mem _ h)
      | succ n =>
          rcases List.mem_cons.mp hx with h | h
          · exact Or.inl (by simp [h])
          · rcases ih n h with h' | h'
            · exact Or.inl (List.mem_cons_of_mem _ h')
            · exact Or.inr h'

theorem newLB_elbs (e : LoadBalancerDescription) :
    (newLB e).elbs = [e.loadBalancerName] := by
  simp [newLB, LB.replaceELB, LB.addPorts, LB.addSecurityGroups]

theorem replaceELB_elbs (clb : LB) (e : LoadBalancerDescription) :
    (clb.replaceELB e).elbs = clb.elbs ++ [e.loadBalancerName] := by
  simp [LB.replaceELB, LB.addPorts, LB.addSecurityGroups]

theorem replaceELB_ports (clb : LB) (e : LoadBalancerDescription) :
    (clb.replaceELB e).ports =
      (listenerPorts e.listenerDescriptions).foldl (fun a p => insertElem p a) clb.ports := by
  simp [LB.replaceELB, LB.addPorts, LB.addSecurityGroups]

theorem replaceELB_ports_nodup (clb : LB) (e : LoadBalancerDescription)
    (h : clb.ports.Nodup) : (clb.replaceELB e).ports.Nodup := by
  rw [replaceELB_ports]
  exact nodup_foldl_insertElem _ _ h

theorem newLB_ports_nodup (e : LoadBalancerDescription) : (newLB e).ports.Nodup :=
  replaceELB_ports_nodup _ e List.nodup_nil

theorem famNames_append (fam : List LB) (x : LB) :
    famNames (fam ++ [x]) = famNames fam ++ x.elbs := by
  simp [famNames]

theorem perm_wrap {α : Type} (Tk Dr R R' : List α) (a : α) (h : R'.Perm (R ++ [a])) :
    (Tk ++ R' ++ Dr).Perm ((Tk ++ R ++ Dr) ++ [a]) := by
  have h1 : (Tk ++ R' ++ Dr).Perm (Tk ++ (R ++ [a]) ++ Dr) :=
    List.Perm.append_right Dr (List.Perm.append_left Tk h)
  exact h1.trans (perm_snoc_mid Tk R Dr a)

theorem famNames_updateAt_replace (fam : List LB) (idx : Nat)
    (e : LoadBalancerDescription) (h : idx < fam.length) :
    (famNames (updateAt fam idx (fun clb => clb.replaceELB e))).Perm
      (famNames fam ++ [e.loadBalancerName]) := by
  rw [updateAt_eq_append fam idx _ dummyLB h]
  conv_rhs => rw [take_getD_drop fam idx dummyLB h]
  simp only [famNames, List.flatMap_append, List.flatMap_cons, replaceELB_elbs]
  have := perm_wrap (( fam.take idx).flatMap LB.elbs)
    ((fam.drop (idx+1)).flatMap LB.elbs)
    ((fam.getD idx dummyLB).elbs)
    ((fam.getD idx dummyLB).elbs ++ [e.loadBalancerName]) e.loadBalancerName
    (List.Perm.refl _)
  simpa using this

theorem addELBv2_new_case (lb : LoadBalancerDescription) (fam : List LB)
    (bySg : List (String × Nat)) (hfam : famOK fam bySg) (hports : portsOK fam) :
    (famNames (fam ++ [newLB lb])).Perm (famNames fam ++ [lb.loadBalancerName])
    ∧ famOK (fam ++ [newLB lb]) (associateIdx bySg fam.length lb.securityGroups)
    ∧ portsOK (fam ++ [newLB lb]) := by
  refine ⟨?_, ?_, ?_⟩
  · rw [famNames_append, newLB_elbs]
  · intro p hp
    rcases associateIdx_mem _ _ _ _ hp with h2 | h2
    · simp [h2]
    · have := hfam p h2
      simp only [List.length_append, List.length_cons, List.length_nil]
      omega
  · intro clb hclb
    rcases List.mem_append.mp hclb with h2 | h2
    · exact hports clb h2
    · rw [List.mem_singleton] at h2
      subst h2
      exact newLB_ports_nodup lb

theorem addELBv2_spec (sgs : List (String × SecurityGroup))
    (scanOrder : List (String × Nat) → List (String × Nat))
    (lb : LoadBalancerDescription) (first allow : Bool) (fam : List LB)
    (bySg : List (String × Nat)) (out : List LB × List (String × Nat))
    (hso : ∀ p ∈ scanOrder bySg, p ∈ bySg)
    (hfam : famOK fam bySg) (hports : portsOK fam)
    (h : addELBv2 sgs scanOrder lb first allow fam bySg = some out) :
    (famNames out.1).Perm (famNames fam ++ [lb.loadBalancerName])
    ∧ famOK out.1 out.2 ∧ portsOK out.1 := by
  unfold addELBv2 at h
  by_cases hfirst : first = true
  · rw [if_pos hfirst] at h
    obtain rfl := Option.some.inj h
    exact addELBv2_new_case lb fam bySg hfam hports
  · rw [if_neg hfirst] at h
    cases hfe : findExisting sgs lb allow fam bySg (scanOrder bySg) lb.securityGroups with
    | none => rw [hfe] at h; cases h
    | some o =>
        rw [hfe] at h
        cases o with
        | some idx =>
            simp only [] at h
            obtain rfl := Option.some.inj h
            have hidx : idx < fam.length := by
              obtain ⟨g, hg, hcase⟩ := findExisting_some _ _ _ _ _ _ _ _ hfe
              rcases hcase with ⟨hlk, h3⟩ | ⟨k, hk, h3, h4⟩
              · exact hfam _ (lookupA_mem _ _ _ hlk)
              · exact hfam _ (hso _ hk)
            refine ⟨famNames_updateAt_replace fam idx lb hidx, ?_, ?_⟩
            · intro p hp
              rcases associateIdx_mem _ _ _ _ hp with h2 | h2
              · rw [updateAt_length]
                omega
              · rw [updateAt_length]
                exact hfam p h2
            · intro clb hclb
              rcases mem_updateAt fam idx _ dummyLB clb hclb with h2 | h2
              · exact hports clb h2
              · subst h2
                exact replaceELB_ports_nodup _ _ (hports _ (getD_mem fam idx dummyLB hidx))
        | none =>
            simp only [] at h
            obtain rfl := Option.some.inj h
            exact addELBv2_new_case lb fam bySg hfam hports

theorem recOK_new : recOK newRecommendation := by
  refine ⟨?_, ?_, ?_, ?_, ?_, ?_⟩ <;> intro p hp <;> simp [newRecommendation] at hp

theorem associate_spec (ts : Tiers) (idx : Nat) (s : String)
    (hidx : idx < ts.tiers.length) (hOK : stateOK ts) :
    stateOK (ts.associate idx s)
    ∧ (ts.associate idx s).tiers.map Tier.recommendation = ts.tiers.map Tier.recommendation
    ∧ (ts.associate idx s).tiers.length = ts.tiers.length
    ∧ (ts.associate idx s).securityGroups = ts.securityGroups := by
  refine ⟨⟨?_, ?_⟩, ?_, ?_, rfl⟩
  · intro p hp
    simp only [Tiers.associate] at hp ⊢
    rw [updateAt_length]
    rcases setA_mem _ _ _ _ hp with h | h
    · rw [h]
      exact hidx
    · exact hOK.1 p h
  · intro t ht
    simp only [Tiers.associate] at ht
    rcases mem_updateAt _ _ _ dummyTier _ ht with h | h
    · exact hOK.2 t h
    · subst h
      show recOK ((ts.tiers.getD idx dummyTier).add s).recommendation
      exact hOK.2 (ts.tiers.getD idx dummyTier) (getD_mem ts.tiers idx dummyTier hidx)
  · simp only [Tiers.associate]
    exact map_updateAt _ _ _ _ (fun x => rfl)
  · simp only [Tiers.associate]
    exact updateAt_length _ _ _

theorem associate_fold_spec (rest : List String) (ts : Tiers) (idx : Nat)
    (hidx : idx < ts.tiers.length) (hOK : stateOK ts) :
    stateOK (rest.foldl (fun acc s' => acc.associate idx s') ts)
    ∧ (rest.foldl (fun acc s' => acc.associate idx s') ts).tiers.map Tier.recommendation
        = ts.tiers.map Tier.recommendation
    ∧ (rest.foldl (fun acc s' => acc.associate idx s') ts).tiers.length = ts.tiers.length
    ∧ (rest.foldl (fun acc s' => acc.associate idx s') ts).securityGroups
        = ts.securityGroups := by
  induction rest generalizing ts with
  | nil => exact ⟨hOK, rfl, rfl, rfl⟩
  | cons x rest ih =>
      obtain ⟨hOK', hmap, hlen, hsg⟩ := associate_spec ts idx x hidx hOK
      obtain ⟨hOK'', hmap', hlen', hsg'⟩ := ih (ts.associate idx x) (hlen ▸ hidx) hOK'
      exact ⟨hOK'', hmap'.trans hmap, hlen'.trans hlen, hsg'.trans hsg⟩

theorem addTierFor_spec (ts : Tiers) (s : String) (hOK : stateOK ts) :
    (ts.addTierFor s).1 < (ts.addTierFor s).2.tiers.length
    ∧ (ts.addTierFor s).2.tiers.map Tier.recommendation
        = ts.tiers.map Tier.recommendation ++ [newRecommendation]
    ∧ stateOK (ts.addTierFor s).2
    ∧ (ts.addTierFor s).2.securityGroups = ts.securityGroups := by
  set T0 : Tier := { subnets := [], recommendation := newRecommendation } with hT0
  set tsx : Tiers := { ts with tiers := ts.tiers ++ [T0] } with htsx
  have hidx : ts.tiers.length < tsx.tiers.length := by
    simp [htsx]
  have hOKx : stateOK tsx := by
    constructor
    · intro p hp
      have := hOK.1 p hp
      simp only [htsx, List.length_append, List.length_cons, List.length_nil]
      omega
    · intro t ht
      rcases List.mem_append.mp ht with h | h
      · exact hOK.2 t h
      · rw [List.mem_singleton] at h
        subst h
        exact recOK_new
  have heq : ts.addTierFor s = (ts.tiers.length, tsx.associate ts.tiers.length s) := rfl
  obtain ⟨hOK', hmap, hlen, hsg⟩ := associate_spec tsx ts.tiers.length s hidx hOKx
  rw [heq]
  refine ⟨?_, ?_, hOK', hsg⟩
  · rw [hlen]
    exact hidx
  · rw [hmap]
    simp [htsx]

theorem find_spec (ts : Tiers) (s : String) (hOK : stateOK ts) :
    (ts.find s).1 < (ts.find s).2.tiers.length
    ∧ ((ts.find s).2.tiers.map Tier.recommendation = ts.tiers.map Tier.recommendation
       ∨ (ts.find s).2.tiers.map Tier.recommendation
           = ts.tiers.map Tier.recommendation ++ [newRecommendation])
    ∧ stateOK (ts.find s).2
    ∧ (ts.find s).2.securityGroups = ts.securityGroups := by
  cases hlk : lookupA s ts.tiersBySubnet with
  | some idx =>
      have heq : ts.find s = (idx, ts) := by
        unfold Tiers.find
        rw [hlk]
      rw [heq]
      exact ⟨hOK.1 _ (lookupA_mem _ _ _ hlk), Or.inl rfl, hOK, rfl⟩
  | none =>
      have heq : ts.find s = ts.addTierFor s := by
        unfold Tiers.find
        rw [hlk]
      rw [heq]
      obtain ⟨h1, h2, h3, h4⟩ := addTierFor_spec ts s hOK
      exact ⟨h1, Or.inr h2, h3, h4⟩

theorem assignTier_spec (ts : Tiers) (lb : LoadBalancerDescription) (idx : Nat)
    (ts' : Tiers) (hOK : stateOK ts) (h : assignTier ts lb = some (idx, ts')) :
    idx < ts'.tiers.length
    ∧ (ts'.tiers.map Tier.recommendation = ts.tiers.map Tier.recommendation
       ∨ ts'.tiers.map Tier.recommendation
           = ts.tiers.map Tier.recommendation ++ [newRecommendation])
    ∧ stateOK ts'
    ∧ ts'.securityGroups = ts.securityGroups := by
  unfold assignTier at h
  cases hsub : lb.subnets with
  | nil => rw [hsub] at h; cases h
  | cons s rest =>
      rw [hsub] at h
      simp only [] at h
      have hpair := Option.some.inj h
      have ha : (ts.find s).1 = idx := congrArg Prod.fst hpair
      have hb : rest.foldl (fun acc s' => acc.associate (ts.find s).1 s') (ts.find s).2 = ts' :=
        congrArg Prod.snd hpair
      subst ha
      subst hb
      obtain ⟨hidx, hmap, hOK1, hsg⟩ := find_spec ts s hOK
      obtain ⟨hOK2, hmap2, hlen2, hsg2⟩ :=
        associate_fold_spec rest (ts.find s).2 (ts.find s).1 hidx hOK1
      refine ⟨?_, ?_, hOK2, hsg2.trans hsg⟩
      · rw [hlen2]
        exact hidx
      · rw [hmap2]
        exact hmap

theorem recNames_eq (r : Recommendation) :
    recNames r = famNames r.albs ++ famNames r.nlbs ++ famNames r.elbs := by
  simp [recNames, famNames, List.flatMap_append]

theorem stateNames_map (ts : Tiers) :
    stateNames ts = (ts.tiers.map Tier.recommendation).flatMap recNames := by
  rw [stateNames, List.flatMap_map]

theorem stateNames_assign (ts ts' : Tiers)
    (h : ts'.tiers.map Tier.recommendation = ts.tiers.map Tier.recommendation
       ∨ ts'.tiers.map Tier.recommendation
           = ts.tiers.map Tier.recommendation ++ [newRecommendation]) :
    stateNames ts' = stateNames ts := by
  rcases h with h | h
  · rw [stateNames_map, stateNames_map, h]
  · rw [stateNames_map, stateNames_map, h, List.flatMap_append]
    simp [recNames, newRecommendation]

theorem elbDrop_concl (ts1 : Tiers) (tIdx : Nat) (t' : Tier) (a : String)
    (hidx : tIdx < ts1.tiers.length) (hOK1 : stateOK ts1)
    (hrec : recOK t'.recommendation)
    (hpm : (recNames t'.recommendation).Perm
      (recNames (ts1.tiers.getD tIdx dummyTier).recommendation ++ [a])) :
    stateOK { ts1 with tiers := ts1.tiers.take tIdx ++ t' :: ts1.tiers.drop (tIdx + 1) }
    ∧ (stateNames { ts1 with
          tiers := ts1.tiers.take tIdx ++ t' :: ts1.tiers.drop (tIdx + 1) }).Perm
        (stateNames ts1 ++ [a])
    ∧ ({ ts1 with tiers := ts1.tiers.take tIdx ++ t' :: ts1.tiers.drop (tIdx + 1) }
        : Tiers).securityGroups = ts1.securityGroups := by
  refine ⟨⟨?_, ?_⟩, ?_, rfl⟩
  · intro p hp
    have hlen : (ts1.tiers.take tIdx ++ t' :: ts1.tiers.drop (tIdx + 1)).length
        = ts1.tiers.length := by
      simp only [List.length_append, List.length_take, List.length_cons, List.length_drop]
      omega
    simp only [hlen]
    exact hOK1.1 p hp
  · intro t ht
    simp only [List.mem_append, List.mem_cons] at ht
    rcases ht with h | h | h
    · exact hOK1.2 t (List.take_subset _ _ h)
    · subst h
      exact hrec
    · exact hOK1.2 t (List.drop_subset _ _ h)
  · show ((ts1.tiers.take tIdx ++ t' :: ts1.tiers.drop (tIdx + 1)).flatMap
      (fun t => recNames t.recommendation)).Perm (stateNames ts1 ++ [a])
    conv_rhs => rw [stateNames, take_getD_drop ts1.tiers tIdx dummyTier hidx]
    rw [List.flatMap_append, List.flatMap_cons, List.flatMap_append, List.flatMap_cons]
    rw [← Multiset.coe_eq_coe] at hpm ⊢
    simp only [← Multiset.coe_add] at hpm ⊢
    rw [hpm]
    abel

theorem elbDrop_spec (scanOrder : List (String × Nat) → List (String × Nat))
    (hso : ∀ bySg : List (String × Nat), ∀ p ∈ scanOrder bySg, p ∈ bySg)
    (ts : Tiers) (lb : LoadBalancerDescription) (ts' : Tiers)
    (hOK : stateOK ts) (h : elbDrop scanOrder ts lb = some ts') :
    stateOK ts' ∧ (stateNames ts').Perm (stateNames ts ++ [lb.loadBalancerName])
      ∧ ts'.securityGroups = ts.securityGroups := by
  unfold elbDrop at h
  cases hat : assignTier ts lb with
  | none => rw [hat] at h; cases h
  | some p =>
      obtain ⟨tIdx, ts1⟩ := p
      rw [hat] at h
      simp only [] at h
      obtain ⟨hidx, hmap, hOK1, hsg1⟩ := assignTier_spec ts lb tIdx ts1 hOK hat
      have hnames1 : stateNames ts1 = stateNames ts := stateNames_assign ts ts1 hmap
      have hrecOK : recOK (ts1.tiers.getD tIdx dummyTier).recommendation :=
        hOK1.2 _ (getD_mem _ _ _ hidx)
      cases hil : inspectListeners lb with
      | none => rw [hil] at h; cases h
      | some target =>
          rw [hil] at h
          simp only [] at h
          cases target with
          | ALB =>
              cases hadd : addELBv2 ts1.securityGroups scanOrder lb
                  ((ts1.tiers.getD tIdx dummyTier).recommendation.albs.length == 0) true
                  (ts1.tiers.getD tIdx dummyTier).recommendation.albs
                  (ts1.tiers.getD tIdx dummyTier).recommendation.albsBySg with
              | none => rw [hadd] at h; cases h
              | some out =>
                  obtain ⟨lbs', bySg'⟩ := out
                  rw [hadd] at h
                  simp only [] at h
                  obtain ⟨hp, hf, hpo⟩ := addELBv2_spec _ _ _ _ _ _ _ _ (hso _)
                    hrecOK.1 hrecOK.2.2.2.1 hadd
                  simp only [] at hp hf hpo
                  rw [updateAt_eq_append _ _ _ dummyTier hidx] at h
                  obtain rfl := Option.some.inj h
                  have hrec' : recOK ({ (ts1.tiers.getD tIdx dummyTier).recommendation with
                      albs := lbs', albsBySg := bySg' } : Recommendation) :=
                    ⟨hf, hrecOK.2.1, hrecOK.2.2.1, hpo, hrecOK.2.2.2.2.1, hrecOK.2.2.2.2.2⟩
                  have hpm' : (recNames ({ (ts1.tiers.getD tIdx dummyTier).recommendation with
                      albs := lbs', albsBySg := bySg' } : Recommendation)).Perm
                      (recNames (ts1.tiers.getD tIdx dummyTier).recommendation
                        ++ [lb.loadBalancerName]) := by
                    have h1 := recNames_eq ({ (ts1.tiers.getD tIdx dummyTier).recommendation with
                      albs := lbs', albsBySg := bySg' } : Recommendation)
                    simp only [] at h1
                    rw [h1, recNames_eq]
                    rw [← Multiset.coe_eq_coe] at hp ⊢
                    simp only [← Multiset.coe_add] at hp ⊢
                    rw [hp]
                    abel
                  obtain ⟨c1, c2, c3⟩ := elbDrop_concl ts1 tIdx
                    ({ ts1.tiers.getD tIdx dummyTier with recommendation :=
                      { (ts1.tiers.getD tIdx dummyTier).recommendation with
                        albs := lbs', albsBySg := bySg' } })
                    lb.loadBalancerName hidx hOK1 hrec' hpm'
                  exact ⟨c1, hnames1 ▸ c2, c3.trans hsg1⟩
          | NLB =>
              cases hadd : addELBv2 ts1.securityGroups scanOrder lb
                  ((ts1.tiers.getD tIdx dummyTier).recommendation.nlbs.length == 0) false
                  (ts1.tiers.getD tIdx dummyTier).recommendation.nlbs
                  (ts1.tiers.getD tIdx dummyTier).recommendation.nlbsBySg with
              | none => rw [hadd] at h; cases h
              | some out =>
                  obtain ⟨lbs', bySg'⟩ := out
                  rw [hadd] at h
                  simp only [] at h
                  obtain ⟨hp, hf, hpo⟩ := addELBv2_spec _ _ _ _ _ _ _ _ (hso _)
                    hrecOK.2.1 hrecOK.2.2.2.2.1 hadd
                  simp only [] at hp hf hpo
                  rw [updateAt_eq_append _ _ _ dummyTier hidx] at h
                  obtain rfl := Option.some.inj h
                  have hrec' : recOK ({ (ts1.tiers.getD tIdx dummyTier).recommendation with
                      nlbs := lbs', nlbsBySg := bySg' } : Recommendation) :=
                    ⟨hrecOK.1, hf, hrecOK.2.2.1, hrecOK.2.2.2.1, hpo, hrecOK.2.2.2.2.2⟩
                  have hpm' : (recNames ({ (ts1.tiers.getD tIdx dummyTier).recommendation with
                      nlbs := lbs', nlbsBySg := bySg' } : Recommendation)).Perm
                      (recNames (ts1.tiers.getD tIdx dummyTier).recommendation
                        ++ [lb.loadBalancerName]) := by
                    have h1 := recNames_eq ({ (ts1.tiers.getD tIdx dummyTier).recommendation with
                      nlbs := lbs', nlbsBySg := bySg' } : Recommendation)
                    simp only [] at h1
                    rw [h1, recNames_eq]
                    rw [← Multiset.coe_eq_coe] at hp ⊢
                    simp only [← Multiset.coe_add] at hp ⊢
                    rw [hp]
                    abel
                  obtain ⟨c1, c2, c3⟩ := elbDrop_concl ts1 tIdx
                    ({ ts1.tiers.getD tIdx dummyTier with recommendation :=
                      { (ts1.tiers.getD tIdx dummyTier).recommendation with
                        nlbs := lbs', nlbsBySg := bySg' } })
                    lb.loadBalancerName hidx hOK1 hrec' hpm'
                  exact ⟨c1, hnames1 ▸ c2, c3.trans hsg1⟩
          | ELB =>
              cases hadd : addELBv2 ts1.securityGroups scanOrder lb
                  ((ts1.tiers.getD tIdx dummyTier).recommendation.elbs.length == 0) false
                  (ts1.tiers.getD tIdx dummyTier).recommendation.elbs
                  (ts1.tiers.getD tIdx dummyTier).recommendation.elbsBySg with
              | none => rw [hadd] at h; cases h
              | some out =>
                  obtain ⟨lbs', bySg'⟩ := out
                  rw [hadd] at h
                  simp only [] at h
                  obtain ⟨hp, hf, hpo⟩ := addELBv2_spec _ _ _ _ _ _ _ _ (hso _)
                    hrecOK.2.2.1 hrecOK.2.2.2.2.2 hadd
                  simp only [] at hp hf hpo
                  rw [updateAt_eq_append _ _ _ dummyTier hidx] at h
                  obtain rfl := Option.some.inj h
                  have hrec' : recOK ({ (ts1.tiers.getD tIdx dummyTier).recommendation with
                      elbs := lbs', elbsBySg := bySg' } : Recommendation) :=
                    ⟨hrecOK.1, hrecOK.2.1, hf, hrecOK.2.2.2.1, hrecOK.2.2.2.2.1, hpo⟩
                  have hpm' : (recNames ({ (ts1.tiers.getD tIdx dummyTier).recommendation with
                      elbs := lbs', elbsBySg := bySg' } : Recommendation)).Perm
                      (recNames (ts1.tiers.getD tIdx dummyTier).recommendation
                        ++ [lb.loadBalancerName]) := by
                    have h1 := recNames_eq ({ (ts1.tiers.getD tIdx dummyTier).recommendation with
                      elbs := lbs', elbsBySg := bySg' } : Recommendation)
                    simp only [] at h1
                    rw [h1, recNames_eq]
                    rw [← Multiset.coe_eq_coe] at hp ⊢
                    simp only [← Multiset.coe_add] at hp ⊢
                    rw [hp]
                    abel
                  obtain ⟨c1, c2, c3⟩ := elbDrop_concl ts1 tIdx
                    ({ ts1.tiers.getD tIdx dummyTier with recommendation :=
                      { (ts1.tiers.getD tIdx dummyTier).recommendation with
                        elbs := lbs', elbsBySg := bySg' } })
                    lb.loadBalancerName hidx hOK1 hrec' hpm'
                  exact ⟨c1, hnames1 ▸ c2, c3.trans hsg1⟩

theorem dropAll_spec (scanOrder : List (String × Nat) → List (String × Nat))
    (hso : ∀ bySg : List (String × Nat), ∀ p ∈ scanOrder bySg, p ∈ bySg)
    (lbs : List LoadBalancerDescription) (ts ts' : Tiers)
    (hOK : stateOK ts) (h : dropAll scanOrder ts lbs = some ts') :
    stateOK ts'
    ∧ (stateNames ts').Perm
        (stateNames ts ++ lbs.map LoadBalancerDescription.loadBalancerName) := by
  induction lbs generalizing ts with
  | nil =>
      unfold dropAll at h
      obtain rfl := Option.some.inj h
      exact ⟨hOK, by simp⟩
  | cons lb rest ih =>
      unfold dropAll at h
      cases hd : elbDrop scanOrder ts lb with
      | none => rw [hd] at h; cases h
      | some ts1 =>
          rw [hd] at h
          obtain ⟨h1, h2, h3⟩ := elbDrop_spec scanOrder hso ts lb ts1 hOK hd
          obtain ⟨h4, h5⟩ := ih ts1 h1 h
          refine ⟨h4, ?_⟩
          simp only [List.map_cons]
          refine h5.trans ?_
          have h6 := h2.append_right (rest.map LoadBalancerDescription.loadBalancerName)
          refine h6.trans ?_
          rw [List.append_assoc]
          exact List.Perm.refl _

theorem stateOK_newTiers (sgs : List (String × SecurityGroup)) : stateOK (newTiers sgs) := by
  constructor
  · intro p hp
    simp [newTiers] at hp
  · intro t ht
    simp [newTiers] at ht

theorem allNames_recommendations (ts : Tiers) :
    allNames ts.recommendations = stateNames ts := by
  simp [allNames, Tiers.recommendations, stateNames, List.flatMap_map, recNames]

theorem generateRecommendations_inv (lbs : List LoadBalancerDescription)
    (sgs : List (String × SecurityGroup)) (recs : List Recommendation)
    (h : generateRecommendations lbs sgs = some recs) :
    (allNames recs).Perm (lbs.map LoadBalancerDescription.loadBalancerName)
    ∧ ∀ r ∈ recs, ∀ clb ∈ recCLBs r, clb.ports.Nodup := by
  unfold generateRecommendations generateRecommendationsOrd at h
  cases hd : dropAll (fun l => l) (newTiers sgs) lbs with
  | none => rw [hd] at h; cases h
  | some ts =>
      rw [hd] at h
      simp only [] at h
      obtain rfl := Option.some.inj h
      obtain ⟨hOK, hperm⟩ := dropAll_spec _ (fun bySg p hp => hp) lbs _ _
        (stateOK_newTiers sgs) hd
      constructor
      · rw [allNames_recommendations]
        simpa using hperm
      · intro r hr clb hclb
        simp only [Tiers.recommendations, List.mem_map] at hr
        obtain ⟨t, ht, rfl⟩ := hr
        have hrOK := hOK.2 t ht
        simp only [recCLBs] at hclb
        rcases List.mem_append.mp hclb with hcl | hcl
        · rcases List.mem_append.mp hcl with hcl2 | hcl2
          · exact hrOK.2.2.2.1 clb hcl2
          · exact hrOK.2.2.2.2.1 clb hcl2
        · exact hrOK.2.2.2.2.2 clb hcl

/-! ### Claim theorems -/

/-- C4: the equivalence test on two security-group ids returns `true`
exactly when their flattened ingress source-range sets (every permission's
source ranges collected into one set, ignoring port and protocol) are equal
as sets; a strict subset gives `false`.  The first conjunct ties the
flattened set to the raw input permissions. -/
theorem c4_ingress_equality :
    (∀ (sgs : List (String × SecurityGroup)) (g : String) (sg : SecurityGroup),
      lookupA g sgs = some sg → ∀ x : String,
        (x ∈ (findOrGetIngress sgs g).getD [] ↔ ∃ perm ∈ sg.ipPermissions, x ∈ perm))
    ∧ (∀ (sgs : List (String × SecurityGroup)) (g1 g2 : String) (r1 r2 : List String),
        findOrGetIngress sgs g1 = some r1 → findOrGetIngress sgs g2 = some r2 →
        ((hasSameIngress sgs g1 g2 = some true ↔ ∀ x, (x ∈ r1 ↔ x ∈ r2))
         ∧ ((∀ x ∈ r1, x ∈ r2) → (∃ x ∈ r2, x ∉ r1) →
             hasSameIngress sgs g1 g2 = some false))) := by
  constructor
  · exact fun sgs g sg hl x => findOrGetIngress_mem sgs g sg hl x
  · intro sgs g1 g2 r1 r2 h1 h2
    rw [hasSameIngress_some sgs g1 g2 r1 r2 h1 h2]
    constructor
    · constructor
      · intro h
        exact (sameKeySet_iff r1 r2).mp (Option.some.inj h)
      · intro h
        rw [(sameKeySet_iff r1 r2).mpr h]
    · rintro hsub ⟨x, hx2, hx1⟩
      have : ¬ (∀ y, (y ∈ r1 ↔ y ∈ r2)) := fun hall => hx1 ((hall x).mpr hx2)
      have hne : sameKeySet r1 r2 ≠ true := fun htrue => this ((sameKeySet_iff r1 r2).mp htrue)
      have hfalse : sameKeySet r1 r2 = false := Bool.eq_false_iff.mpr hne
      rw [hfalse]

/-- C5: after a successful run, every input load balancer contributes its
name to exactly one CLB: the names collected across all CLBs of all
recommendations are a permutation of the input name list, so their total
count equals the number of inputs, and when the input names are distinct no
name occurs in two CLBs (the concatenation is duplicate-free). -/
theorem c5_exactly_one_clb (lbs : List LoadBalancerDescription)
    (sgs : List (String × SecurityGroup)) (recs : List Recommendation)
    (h : generateRecommendations lbs sgs = some recs) :
    (allNames recs).Perm (lbs.map LoadBalancerDescription.loadBalancerName)
    ∧ (allNames recs).length = lbs.length
    ∧ ((lbs.map LoadBalancerDescription.loadBalancerName).Nodup → (allNames recs).Nodup) := by
  obtain ⟨hperm, _⟩ := generateRecommendations_inv lbs sgs recs h
  refine ⟨hperm, ?_, ?_⟩
  · rw [hperm.length_eq, List.length_map]
  · intro hnd
    exact hperm.nodup_iff.mpr hnd

/-- C10: in every CLB of a successful run's output, the port set holds each
port at most once (merging colliding ports into an ALB CLB introduces no
duplicate entries), and `Ports` renders a strictly increasing sequence of
numbers as strings. -/
theorem c10_ports_unique (lbs : List LoadBalancerDescription)
    (sgs : List (String × SecurityGroup)) (recs : List Recommendation)
    (h : generateRecommendations lbs sgs = some recs) :
    ∀ r ∈ recs, ∀ clb ∈ recCLBs r,
      clb.ports.Nodup
      ∧ ∃ ns : List Int, List.Sorted (· < ·) ns ∧ clb.Ports = ns.map toString := by
  obtain ⟨_, hnd⟩ := generateRecommendations_inv lbs sgs recs h
  intro r hr clb hclb
  have hports := hnd r hr clb hclb
  refine ⟨hports, List.insertionSort (· ≤ ·) clb.ports, ?_, rfl⟩
  exact sorted_lt_of_le_nodup (List.sorted_insertionSort _ clb.ports)
    ((List.perm_insertionSort _ clb.ports).nodup_iff.mpr hports)

/-- C9: the output of a successful run is the tier list rendered in
creation order, each recommendation exposing a lexicographically sorted
subnet list, and each CLB exposing its replaced names in merge order, its
ports as an ascending-sorted list of numbers formatted as strings, and its
security-group ids sorted lexicographically. -/
theorem c9_output_ordering (lbs : List LoadBalancerDescription)
    (sgs : List (String × SecurityGroup)) (recs : List Recommendation)
    (h : generateRecommendations lbs sgs = some recs) :
    (∃ ts, dropAll (fun l => l) (newTiers sgs) lbs = some ts ∧ recs = ts.recommendations)
    ∧ (∀ r ∈ recs, List.Sorted strLe r.subnets)
    ∧ (∀ r ∈ recs, ∀ clb ∈ recCLBs r,
        (∃ ns : List Int, List.Sorted (· ≤ ·) ns ∧ clb.Ports = ns.map toString)
        ∧ List.Sorted strLe clb.SecurityGroups
        ∧ clb.ELBs = clb.elbs) := by
  unfold generateRecommendations generateRecommendationsOrd at h
  cases hd : dropAll (fun l => l) (newTiers sgs) lbs with
  | none => rw [hd] at h; cases h
  | some ts =>
      rw [hd] at h
      simp only [] at h
      obtain rfl := Option.some.inj h
      refine ⟨⟨ts, rfl, rfl⟩, ?_, ?_⟩
      · intro r hr
        simp only [Tiers.recommendations, List.mem_map] at hr
        obtain ⟨t, ht, rfl⟩ := hr
        exact List.sorted_insertionSort strLe t.subnets
      · intro r hr clb hclb
        exact ⟨⟨List.insertionSort (· ≤ ·) clb.ports,
          List.sorted_insertionSort _ clb.ports, rfl⟩,
          List.sorted_insertionSort strLe clb.securityGroups, rfl⟩

/-! ### Savings aggregation -/

theorem count_elbs_foldl (fam : List LB) (n : Nat) :
    fam.foldl (fun a lb => a + lb.ELBs.length) n = n + (famNames fam).length := by
  induction fam generalizing n with
  | nil => simp [famNames]
  | cons clb rest ih =>
      simp only [List.foldl_cons, ih, famNames, List.flatMap_cons, List.length_append]
      simp [famNames, LB.ELBs]
      omega

theorem count_elbs (fam : List LB) : (count fam).elbs = (famNames fam).length := by
  unfold count
  simp only []
  rw [count_elbs_foldl fam 0]
  omega

theorem totals_fold (recs : List Recommendation) (a b c d : Nat) :
    recs.foldl
      (fun acc r =>
        (acc.1 + (count r.albs).elbs + (count r.nlbs).elbs + (count r.elbs).elbs,
         acc.2.1 + (count r.albs).lbs,
         acc.2.2.1 + (count r.nlbs).lbs,
         acc.2.2.2 + (count r.elbs).lbs))
      (a, b, c, d)
    = (a + (recs.map (fun r => (recNames r).length)).sum,
       b + (recs.map (fun r => r.albs.length)).sum,
       c + (recs.map (fun r => r.nlbs.length)).sum,
       d + (recs.map (fun r => r.elbs.length)).sum) := by
  induction recs generalizing a b c d with
  | nil => simp
  | cons r rest ih =>
      simp only [List.foldl_cons, ih, List.map_cons, List.sum_cons]
      have hr : (recNames r).length
          = (famNames r.albs).length + (famNames r.nlbs).length + (famNames r.elbs).length := by
        rw [recNames_eq]
        simp only [List.length_append]
      refine congrArg₂ Prod.mk ?_ (congrArg₂ Prod.mk ?_ (congrArg₂ Prod.mk ?_ ?_))
      · rw [count_elbs, count_elbs, count_elbs, hr]
        omega
      · unfold count
        simp only []
        omega
      · unfold count
        simp only []
        omega
      · unfold count
        simp only []
        omega

theorem totals_eq (recs : List Recommendation) :
    totals recs = ((allNames recs).length,
      (recs.map (fun r => r.albs.length)).sum,
      (recs.map (fun r => r.nlbs.length)).sum,
      (recs.map (fun r => r.elbs.length)).sum) := by
  unfold totals
  rw [totals_fold]
  have : (allNames recs).length = (recs.map (fun r => (recNames r).length)).sum := by
    unfold allNames
    rw [List.length_flatMap]
    rfl
  rw [this]
  simp

/-- The savings formula as the specification writes it:
`(original - (0.9*(albs+nlbs) + elbs)) / original * 100`, over exact
rationals. -/
def specSavings (original albs nlbs elbs : Nat) : ℚ :=
  ((original : ℚ) - ((9 / 10) * ((albs : ℚ) + (nlbs : ℚ)) + (elbs : ℚ)))
    / (original : ℚ) * 100

/-- C8: for a successful run, the printed savings estimate equals the
specification's formula with `original` the number of input load balancers
and `albs`, `nlbs`, `elbs` the total numbers of CLBs of each type across
all recommendations. -/
theorem c8_savings_formula (lbs : List LoadBalancerDescription)
    (sgs : List (String × SecurityGroup)) (recs : List Recommendation)
    (h : generateRecommendations lbs sgs = some recs) :
    overallSaving recs = specSavings lbs.length
      ((recs.map (fun r => r.albs.length)).sum)
      ((recs.map (fun r => r.nlbs.length)).sum)
      ((recs.map (fun r => r.elbs.length)).sum) := by
  have hlen : (allNames recs).length = lbs.length := by
    obtain ⟨hperm, _⟩ := generateRecommendations_inv lbs sgs recs h
    rw [hperm.length_eq, List.length_map]
  unfold overallSaving
  rw [totals_eq]
  simp only []
  rw [hlen]
  unfold saving specSavings
  ring

/-! ### Symbolic evaluation helpers for short runs -/

theorem associate_mapRec (ts : Tiers) (idx : Nat) (s : String) :
    (ts.associate idx s).tiers.map Tier.recommendation
      = ts.tiers.map Tier.recommendation :=
  map_updateAt _ _ _ _ (fun _ => rfl)

theorem fold_associate_len (L : List String) (ts : Tiers) (idx : Nat) :
    (L.foldl (fun acc s' => acc.associate idx s') ts).tiers.length = ts.tiers.length := by
  induction L generalizing ts with
  | nil => rfl
  | cons z L ih =>
      rw [List.foldl_cons, ih]
      simp [Tiers.associate, updateAt_length]

theorem fold_associate_mapRec (L : List String) (ts : Tiers) (idx : Nat) :
    (L.foldl (fun acc s' => acc.associate idx s') ts).tiers.map Tier.recommendation
      = ts.tiers.map Tier.recommendation := by
  induction L generalizing ts with
  | nil => rfl
  | cons z L ih =>
      rw [List.foldl_cons, ih, associate_mapRec]

theorem fold_associate_sgs (L : List String) (ts : Tiers) (idx : Nat) :
    (L.foldl (fun acc s' => acc.associate idx s') ts).securityGroups
      = ts.securityGroups := by
  induction L generalizing ts with
  | nil => rfl
  | cons z L ih =>
      rw [List.foldl_cons, ih]
      rfl

theorem fold_associate_bySubnet (L : List String) (ts : Tiers) (idx : Nat) (x : String) :
    lookupA x (L.foldl (fun acc s' => acc.associate idx s') ts).tiersBySubnet
      = if x ∈ L then some idx else lookupA x ts.tiersBySubnet := by
  induction L generalizing ts with
  | nil => simp
  | cons z L ih =>
      rw [List.foldl_cons, ih]
      by_cases hxL : x ∈ L
      · simp [hxL]
      · by_cases hxz : z = x
        · subst hxz
          simp [hxL, Tiers.associate, lookupA_setA]
        · have hx : ¬ (x = z) := fun h => hxz h.symm
          simp only [Tiers.associate]
          rw [lookupA_setA]
          simp [hxL, hxz, hx, List.mem_cons]

theorem assignTier_fresh (sgs : List (String × SecurityGroup))
    (lb : LoadBalancerDescription) (s : String) (rest : List String)
    (hsub : lb.subnets = s :: rest) :
    ∃ ts', assignTier (newTiers sgs) lb = some (0, ts')
      ∧ ts'.tiers.length = 1
      ∧ ts'.tiers.map Tier.recommendation = [newRecommendation]
      ∧ (∀ x ∈ lb.subnets, lookupA x ts'.tiersBySubnet = some 0)
      ∧ ts'.securityGroups = sgs := by
  have hfind : (newTiers sgs).find s
      = (0, ⟨[(s, 0)],
          [{ subnets := insertElem s [], recommendation := newRecommendation }], sgs⟩) := by
    rfl
  refine ⟨(lb.subnets.tail).foldl (fun acc s' => acc.associate 0 s')
    ⟨[(s, 0)], [{ subnets := insertElem s [], recommendation := newRecommendation }], sgs⟩,
    ?_, ?_, ?_, ?_, ?_⟩
  · unfold assignTier
    rw [hsub]
    simp only [hfind, hsub, List.tail_cons]
  · rw [hsub, List.tail_cons, fold_associate_len]
    rfl
  · rw [hsub, List.tail_cons, fold_associate_mapRec]
    rfl
  · intro x hx
    rw [hsub, List.tail_cons, fold_associate_bySubnet]
    rw [hsub] at hx
    rcases List.mem_cons.mp hx with rfl | hx'
    · by_cases hxr : x ∈ rest
      · simp [hxr]
      · simp [hxr, lookupA]
    · simp [hx']
  · rw [hsub, List.tail_cons, fold_associate_sgs]

theorem assignTier_hit (ts : Tiers) (lb : LoadBalancerDescription) (s : String)
    (rest : List String) (idx : Nat) (hsub : lb.subnets = s :: rest)
    (hlk : lookupA s ts.tiersBySubnet = some idx) :
    ∃ ts', assignTier ts lb = some (idx, ts')
      ∧ ts'.tiers.length = ts.tiers.length
      ∧ ts'.tiers.map Tier.recommendation = ts.tiers.map Tier.recommendation
      ∧ ts'.securityGroups = ts.securityGroups
      ∧ (∀ x ∈ lb.subnets, lookupA x ts'.tiersBySubnet = some idx) := by
  have hfind : ts.find s = (idx, ts) := by
    unfold Tiers.find
    rw [hlk]
  refine ⟨rest.foldl (fun acc s' => acc.associate idx s') ts, ?_, ?_, ?_, ?_, ?_⟩
  · unfold assignTier
    rw [hsub]
    simp only [hfind]
  · rw [fold_associate_len]
  · rw [fold_associate_mapRec]
  · rw [fold_associate_sgs]
  · intro x hx
    rw [fold_associate_bySubnet]
    rw [hsub] at hx
    rcases List.mem_cons.mp hx with rfl | hx'
    · by_cases hxr : x ∈ rest
      · simp [hxr]
      · simp [hxr, hlk]
    · simp [hx']

theorem elbDrop_tiers (scanOrder : List (String × Nat) → List (String × Nat))
    (ts : Tiers) (lb : LoadBalancerDescription) (ts' : Tiers)
    (h : elbDrop scanOrder ts lb = some ts') :
    ∃ tIdx ts1, assignTier ts lb = some (tIdx, ts1)
      ∧ ts'.tiers.length = ts1.tiers.length
      ∧ ts'.tiersBySubnet = ts1.tiersBySubnet
      ∧ ts'.securityGroups = ts1.securityGroups := by
  unfold elbDrop at h
  cases hat : assignTier ts lb with
  | none => rw [hat] at h; cases h
  | some p =>
      obtain ⟨tIdx, ts1⟩ := p
      rw [hat] at h
      simp only [] at h
      refine ⟨tIdx, ts1, rfl, ?_⟩
      cases hil : inspectListeners lb with
      | none => rw [hil] at h; cases h
      | some target =>
          rw [hil] at h
          simp only [] at h
          cases target with
          | ALB =>
              cases hadd : addELBv2 ts1.securityGroups scanOrder lb
                  ((ts1.tiers.getD tIdx dummyTier).recommendation.albs.length == 0) true
                  (ts1.tiers.getD tIdx dummyTier).recommendation.albs
                  (ts1.tiers.getD tIdx dummyTier).recommendation.albsBySg with
              | none => rw [hadd] at h; cases h
              | some out =>
                  obtain ⟨lbs', bySg'⟩ := out
                  rw [hadd] at h
                  simp only [] at h
                  obtain rfl := (Option.some.inj h)
                  exact ⟨by simp [updateAt_length], rfl, rfl⟩
          | NLB =>
              cases hadd : addELBv2 ts1.securityGroups scanOrder lb
                  ((ts1.tiers.getD tIdx dummyTier).recommendation.nlbs.length == 0) false
                  (ts1.tiers.getD tIdx dummyTier).recommendation.nlbs
                  (ts1.tiers.getD tIdx dummyTier).recommendation.nlbsBySg with
              | none => rw [hadd] at h; cases h
              | some out =>
                  obtain ⟨lbs', bySg'⟩ := out
                  rw [hadd] at h
                  simp only [] at h
                  obtain rfl := (Option.some.inj h)
                  exact ⟨by simp [updateAt_length], rfl, rfl⟩
          | ELB =>
              cases hadd : addELBv2 ts1.securityGroups scanOrder lb
                  ((ts1.tiers.getD tIdx dummyTier).recommendation.elbs.length == 0) false
                  (ts1.tiers.getD tIdx dummyTier).recommendation.elbs
                  (ts1.tiers.getD tIdx dummyTier).recommendation.elbsBySg with
              | none => rw [hadd] at h; cases h
              | some out =>
                  obtain ⟨lbs', bySg'⟩ := out
                  rw [hadd] at h
                  simp only [] at h
                  obtain rfl := (Option.some.inj h)
                  exact ⟨by simp [updateAt_length], rfl, rfl⟩

theorem dropAll_cons_inv (scanOrder : List (String × Nat) → List (String × Nat))
    (ts : Tiers) (lb : LoadBalancerDescription) (rest : List LoadBalancerDescription)
    (ts' : Tiers) (h : dropAll scanOrder ts (lb :: rest) = some ts') :
    ∃ ts1, elbDrop scanOrder ts lb = some ts1 ∧ dropAll scanOrder ts1 rest = some ts' := by
  unfold dropAll at h
  cases hd : elbDrop scanOrder ts lb with
  | none => rw [hd] at h; cases h
  | some ts1 =>
      rw [hd] at h
      exact ⟨ts1, rfl, h⟩

/-- C1 (amended): in a run consisting of exactly two load balancers, if the
first subnet of the second one already belongs to the first one's subnet
list, the two converge: the run produces a single Recommendation and both
names appear under it.  (As stated — for an arbitrary position of the
shared subnet — the claim fails; see the counterexample.) -/
theorem c1_tier_convergence (lb1 lb2 : LoadBalancerDescription)
    (sgs : List (String × SecurityGroup)) (recs : List Recommendation)
    (s2 : String) (rest2 : List String)
    (hsub2 : lb2.subnets = s2 :: rest2) (hmem : s2 ∈ lb1.subnets)
    (h : generateRecommendations [lb1, lb2] sgs = some recs) :
    recs.length = 1
    ∧ lb1.loadBalancerName ∈ recNames (recs.getD 0 newRecommendation)
    ∧ lb2.loadBalancerName ∈ recNames (recs.getD 0 newRecommendation) := by
  obtain ⟨hperm, hrest⟩ := generateRecommendations_inv [lb1, lb2] sgs recs h
  unfold generateRecommendations generateRecommendationsOrd at h
  cases hd : dropAll (fun l => l) (newTiers sgs) [lb1, lb2] with
  | none => rw [hd] at h; cases h
  | some tsB =>
      rw [hd] at h
      simp only [] at h
      obtain rfl := Option.some.inj h
      obtain ⟨tsA, hd1, hdr⟩ := dropAll_cons_inv _ _ _ _ _ hd
      obtain ⟨tsB', hd2, hd3⟩ := dropAll_cons_inv _ _ _ _ _ hdr
      have htsB : tsB' = tsB := Option.some.inj hd3
      subst htsB
      cases hsub1 : lb1.subnets with
      | nil => rw [hsub1] at hmem; cases hmem
      | cons s1 rest1 =>
          obtain ⟨t1, tsA1, hat1, hlenA, hbyA, hsgA⟩ := elbDrop_tiers _ _ _ _ hd1
          obtain ⟨ts1', hat1', hlen1', hmap1', hby1', hsg1'⟩ :=
            assignTier_fresh sgs lb1 s1 rest1 hsub1
          have hp1 := Option.some.inj (hat1'.symm.trans hat1)
          have hts1 : ts1' = tsA1 := congrArg Prod.snd hp1
          subst hts1
          have hlkA : lookupA s2 tsA.tiersBySubnet = some 0 := by
            rw [hbyA]
            exact hby1' s2 hmem
          obtain ⟨t2, tsB1, hat2, hlenB, hbyB, hsgB⟩ := elbDrop_tiers _ _ _ _ hd2
          obtain ⟨ts2', hat2', hlen2', hmap2', hsg2', hby2'⟩ :=
            assignTier_hit tsA lb2 s2 rest2 0 hsub2 hlkA
          have hp2 := Option.some.inj (hat2'.symm.trans hat2)
          have hts2 : ts2' = tsB1 := congrArg Prod.snd hp2
          subst hts2
          have hlen : (Tiers.recommendations tsB').length = 1 := by
            unfold Tiers.recommendations
            rw [List.length_map, hlenB, hlen2', hlenA, hlen1']
          obtain ⟨r, hr⟩ := List.length_eq_one.mp hlen
          have hn1 : lb1.loadBalancerName ∈ allNames (Tiers.recommendations tsB') := by
            refine hperm.mem_iff.mpr ?_
            simp
          have hn2 : lb2.loadBalancerName ∈ allNames (Tiers.recommendations tsB') := by
            refine hperm.mem_iff.mpr ?_
            simp
          rw [hr] at hn1 hn2 ⊢
          refine ⟨rfl, ?_, ?_⟩
          · simpa [allNames] using hn1
          · simpa [allNames] using hn2

/-! ### Per-target family selectors and short-run computation -/

/-- The CLB list and by-security-group index a target type selects in a
recommendation (the pair `elbDrop` hands to `addELBv2`). -/
def famFields (r : Recommendation) : lbType → List LB × List (String × Nat)
  | lbType.ALB => (r.albs, r.albsBySg)
  | lbType.NLB => (r.nlbs, r.nlbsBySg)
  | lbType.ELB => (r.elbs, r.elbsBySg)

/-- Whether `elbDrop` lets the target type tolerate port collisions. -/
def allowOf : lbType → Bool
  | lbType.ALB => true
  | lbType.NLB => false
  | lbType.ELB => false

/-- Write back one CLB family into a recommendation. -/
def setFam (r : Recommendation) (target : lbType) (out : List LB × List (String × Nat)) :
    Recommendation :=
  match target with
  | lbType.ALB => { r with albs := out.1, albsBySg := out.2 }
  | lbType.NLB => { r with nlbs := out.1, nlbsBySg := out.2 }
  | lbType.ELB => { r with elbs := out.1, elbsBySg := out.2 }

/-- The recommendation created for the first load balancer of a target type
in a fresh tier. -/
def firstRec (target : lbType) (lb : LoadBalancerDescription) : Recommendation :=
  setFam newRecommendation target ([newLB lb], associateIdx [] 0 lb.securityGroups)

theorem dropAll_cons_eq (scanOrder : List (String × Nat) → List (String × Nat))
    (ts : Tiers) (lb : LoadBalancerDescription) (rest : List LoadBalancerDescription) :
    dropAll scanOrder ts (lb :: rest)
      = match elbDrop scanOrder ts lb with
        | none => none
        | some ts1 => dropAll scanOrder ts1 rest := rfl

theorem addELBv2_nomatch (sgs : List (String × SecurityGroup))
    (scanOrder : List (String × Nat) → List (String × Nat))
    (lb : LoadBalancerDescription) (allow : Bool) (fam : List LB)
    (bySg : List (String × Nat))
    (h : findExisting sgs lb allow fam bySg (scanOrder bySg) lb.securityGroups
      = some none) :
    addELBv2 sgs scanOrder lb false allow fam bySg
      = some (fam ++ [newLB lb], associateIdx bySg fam.length lb.securityGroups) := by
  unfold addELBv2
  rw [if_neg (by simp : ¬ (false = true))]
  rw [h]

theorem addELBv2_merge (sgs : List (String × SecurityGroup))
    (scanOrder : List (String × Nat) → List (String × Nat))
    (lb : LoadBalancerDescription) (allow : Bool) (fam : List LB)
    (bySg : List (String × Nat)) (idx : Nat)
    (h : findExisting sgs lb allow fam bySg (scanOrder bySg) lb.securityGroups
      = some (some idx)) :
    addELBv2 sgs scanOrder lb false allow fam bySg
      = some (updateAt fam idx (fun clb => clb.replaceELB lb),
          associateIdx bySg idx lb.securityGroups) := by
  unfold addELBv2
  rw [if_neg (by simp : ¬ (false = true))]
  rw [h]

theorem scanSeen_cons_hit (sgs : List (String × SecurityGroup))
    (lb : LoadBalancerDescription) (allow : Bool) (fam : List LB) (g k : String)
    (i : Nat) (rest : List (String × Nat))
    (hsi : hasSameIngress sgs k g = some true)
    (hperm : (allow || !((fam.getD i dummyLB).hasPortCollision lb)) = true) :
    scanSeen sgs lb allow fam g ((k, i) :: rest) = some (some i) := by
  unfold scanSeen
  rw [hsi]
  simp only [if_true]
  rw [if_pos hperm]

theorem scanSeen_none_of_blocked (sgs : List (String × SecurityGroup))
    (lb : LoadBalancerDescription) (allow : Bool) (fam : List LB) (g : String)
    (ord : List (String × Nat))
    (h : ∀ p ∈ ord, ∃ b, hasSameIngress sgs p.1 g = some b
      ∧ (b = true → (allow || !((fam.getD p.2 dummyLB).hasPortCollision lb)) = false)) :
    scanSeen sgs lb allow fam g ord = some none := by
  induction ord with
  | nil => rfl
  | cons p rest ih =>
      obtain ⟨k, i⟩ := p
      obtain ⟨b, hb, hblock⟩ := h (k, i) (List.mem_cons_self _ _)
      unfold scanSeen
      rw [hb]
      simp only []
      cases b with
      | false =>
          simp only [Bool.false_eq_true, if_false]
          exact ih (fun q hq => h q (List.mem_cons_of_mem _ hq))
      | true =>
          simp only [if_true]
          rw [hblock rfl]
          simp only [Bool.false_eq_true, if_false]
          exact ih (fun q hq => h q (List.mem_cons_of_mem _ hq))

theorem findExisting_none_of_blocked (sgs : List (String × SecurityGroup))
    (lb : LoadBalancerDescription) (allow : Bool) (fam : List LB)
    (bySg ord : List (String × Nat)) (gs : List String)
    (h1 : ∀ g ∈ gs, ∀ idx, lookupA g bySg = some idx →
        (allow || !((fam.getD idx dummyLB).hasPortCollision lb)) = false)
    (h2 : ∀ g ∈ gs, ∀ p ∈ ord, ∃ b, hasSameIngress sgs p.1 g = some b
      ∧ (b = true → (allow || !((fam.getD p.2 dummyLB).hasPortCollision lb)) = false)) :
    findExisting sgs lb allow fam bySg ord gs = some none := by
  induction gs with
  | nil => rfl
  | cons g gs ih =>
      have hscan : scanSeen sgs lb allow fam g ord = some none :=
        scanSeen_none_of_blocked sgs lb allow fam g ord
          (h2 g (List.mem_cons_self _ _))
      unfold findExisting
      cases hlk : lookupA g bySg with
      | some idx =>
          simp only []
          rw [if_neg]
          · rw [hscan]
            simp only []
            exact ih (fun g' hg' => h1 g' (List.mem_cons_of_mem _ hg'))
              (fun g' hg' => h2 g' (List.mem_cons_of_mem _ hg'))
          · rw [h1 g (List.mem_cons_self _ _) idx hlk]
            simp
      | none =>
          simp only []
          rw [hscan]
          simp only []
          exact ih (fun g' hg' => h1 g' (List.mem_cons_of_mem _ hg'))
            (fun g' hg' => h2 g' (List.mem_cons_of_mem _ hg'))

theorem findExisting_cons_hit (sgs : List (String × SecurityGroup))
    (lb : LoadBalancerDescription) (allow : Bool) (fam : List LB)
    (bySg ord : List (String × Nat)) (g : String) (gs : List String) (idx : Nat)
    (hlk : lookupA g bySg = some idx)
    (hperm : (allow || !((fam.getD idx dummyLB).hasPortCollision lb)) = true) :
    findExisting sgs lb allow fam bySg ord (g :: gs) = some (some idx) := by
  unfold findExisting
  rw [hlk]
  simp only []
  rw [if_pos hperm]

theorem findExisting_cons_scan (sgs : List (String × SecurityGroup))
    (lb : LoadBalancerDescription) (allow : Bool) (fam : List LB)
    (bySg ord : List (String × Nat)) (g : String) (gs : List String) (idx : Nat)
    (hlk : lookupA g bySg = none)
    (hsc : scanSeen sgs lb allow fam g ord = some (some idx)) :
    findExisting sgs lb allow fam bySg ord (g :: gs) = some (some idx) := by
  unfold findExisting
  rw [hlk]
  simp only []
  rw [hsc]

theorem foldl_setA_mem {α : Type} (L : List String) (bySg : List (String × α)) (v : α)
    (p : String × α) (h : p ∈ L.foldl (fun m g => setA g v m) bySg) :
    (p.1 ∈ L ∧ p.2 = v) ∨ p ∈ bySg := by
  induction L generalizing bySg with
  | nil => exact Or.inr h
  | cons g L ih =>
      rw [List.foldl_cons] at h
      rcases ih (setA g v bySg) h with h' | h'
      · exact Or.inl ⟨List.mem_cons_of_mem _ h'.1, h'.2⟩
      · rcases setA_mem _ _ _ _ h' with h'' | h''
        · rw [h'']
          exact Or.inl ⟨List.mem_cons_self _ _, rfl⟩
        · exact Or.inr h''

theorem associateIdx_nil_mem (idx : Nat) (gs : List String) (p : String × Nat)
    (h : p ∈ associateIdx [] idx gs) : p.1 ∈ gs ∧ p.2 = idx := by
  rcases foldl_setA_mem gs [] idx p h with h' | h'
  · exact h'
  · cases h'

theorem setA_ne_nil {α : Type} (k : String) (v : α) (l : List (String × α)) :
    setA k v l ≠ [] := by
  cases l with
  | nil => simp [setA]
  | cons q rest =>
      obtain ⟨a, b⟩ := q
      by_cases h : a = k <;> simp [setA, h]

theorem associateIdx_cons_ne_nil (bySg : List (String × Nat)) (idx : Nat)
    (g : String) (gs : List String) : associateIdx bySg idx (g :: gs) ≠ [] := by
  unfold associateIdx
  rw [List.foldl_cons]
  suffices hgen : ∀ (L : List String) (m : List (String × Nat)), m ≠ [] →
      L.foldl (fun m g => setA g idx m) m ≠ [] by
    exact hgen gs (setA g idx bySg) (setA_ne_nil g idx bySg)
  intro L
  induction L with
  | nil => intro m hm; exact hm
  | cons z L ih =>
      intro m hm
      rw [List.foldl_cons]
      exact ih (setA z idx m) (setA_ne_nil z idx m)

theorem mem_newLB_ports (lb : LoadBalancerDescription) (p : Int) :
    p ∈ (newLB lb).ports ↔ p ∈ listenerPorts lb.listenerDescriptions := by
  unfold newLB
  rw [replaceELB_ports]
  rw [mem_foldl_insertElem]
  simp

theorem hasPortCollision_iff (clb : LB) (lb : LoadBalancerDescription) :
    clb.hasPortCollision lb = true ↔ ∃ ld ∈ lb.listenerDescriptions, ld.port ∈ clb.ports := by
  unfold LB.hasPortCollision
  rw [List.any_eq_true]
  simp

theorem newLB_collision (lb1 lb2 : LoadBalancerDescription)
    (hcol : ∃ p, p ∈ listenerPorts lb1.listenerDescriptions
      ∧ p ∈ listenerPorts lb2.listenerDescriptions) :
    (newLB lb1).hasPortCollision lb2 = true := by
  obtain ⟨p, hp1, hp2⟩ := hcol
  rw [hasPortCollision_iff]
  unfold listenerPorts at hp2
  obtain ⟨ld, hld, hport⟩ := List.mem_map.mp hp2
  exact ⟨ld, hld, by rw [hport, mem_newLB_ports]; exact hp1⟩

theorem elbDrop_from_assign (scanOrder : List (String × Nat) → List (String × Nat))
    (ts ts1 : Tiers) (lb : LoadBalancerDescription) (t1 : Tier)
    (lbs' : List LB) (bySg' : List (String × Nat))
    (hat : assignTier ts lb = some (0, ts1)) (ht1 : ts1.tiers = [t1])
    (target : lbType) (hil : inspectListeners lb = some target)
    (hadd : addELBv2 ts1.securityGroups scanOrder lb
        ((famFields t1.recommendation target).1.length == 0) (allowOf target)
        (famFields t1.recommendation target).1 (famFields t1.recommendation target).2
        = some (lbs', bySg')) :
    elbDrop scanOrder ts lb
      = some { ts1 with
          tiers := [{ t1 with
            recommendation := setFam t1.recommendation target (lbs', bySg') }] } := by
  unfold elbDrop
  rw [hat]
  simp only []
  rw [hil]
  simp only []
  cases target with
  | ALB =>
      simp only [famFields, allowOf] at hadd
      rw [ht1]
      simp only [List.getD_cons_zero]
      rw [hadd]
      simp only [updateAt, setFam]
  | NLB =>
      simp only [famFields, allowOf] at hadd
      rw [ht1]
      simp only [List.getD_cons_zero]
      rw [hadd]
      simp only [updateAt, setFam]
  | ELB =>
      simp only [famFields, allowOf] at hadd
      rw [ht1]
      simp only [List.getD_cons_zero]
      rw [hadd]
      simp only [updateAt, setFam]

theorem two_lb_run (lb1 lb2 : LoadBalancerDescription)
    (sgs : List (String × SecurityGroup)) (target : lbType)
    (s2 : String) (rest2 : List String)
    (lbs2 : List LB) (bySg2 : List (String × Nat))
    (hsub2 : lb2.subnets = s2 :: rest2) (hmem : s2 ∈ lb1.subnets)
    (hil1 : inspectListeners lb1 = some target)
    (hil2 : inspectListeners lb2 = some target)
    (hadd2 : addELBv2 sgs (fun l => l) lb2
      ((famFields (firstRec target lb1) target).1.length == 0) (allowOf target)
      (famFields (firstRec target lb1) target).1
      (famFields (firstRec target lb1) target).2 = some (lbs2, bySg2)) :
    ∃ subs, generateRecommendations [lb1, lb2] sgs
      = some [{ setFam (firstRec target lb1) target (lbs2, bySg2) with
          subnets := subs }] := by
  cases hsub1 : lb1.subnets with
  | nil => rw [hsub1] at hmem; cases hmem
  | cons s1 rest1 =>
      obtain ⟨ts1, hat1, hlen1, hmap1, hby1, hsgs1⟩ :=
        assignTier_fresh sgs lb1 s1 rest1 hsub1
      obtain ⟨t1, ht1⟩ := List.length_eq_one.mp hlen1
      have hrec1 : t1.recommendation = newRecommendation := by
        rw [ht1] at hmap1
        simpa using hmap1
      have hadd1 : addELBv2 ts1.securityGroups (fun l => l) lb1
          ((famFields t1.recommendation target).1.length == 0) (allowOf target)
          (famFields t1.recommendation target).1 (famFields t1.recommendation target).2
          = some ([newLB lb1], associateIdx [] 0 lb1.securityGroups) := by
        rw [hsgs1, hrec1]
        cases target <;> rfl
      have hd1 := elbDrop_from_assign (fun l => l) (newTiers sgs) ts1 lb1 t1 _ _
        hat1 ht1 target hil1 hadd1
      set tsA : Tiers := { ts1 with
        tiers := [{ t1 with
          recommendation := setFam t1.recommendation target ([newLB lb1], associateIdx [] 0 lb1.securityGroups) }] } with htsA
      have hlkA : lookupA s2 tsA.tiersBySubnet = some 0 := hby1 s2 hmem
      obtain ⟨ts2', hat2, hlen2', hmap2', hsg2', hby2'⟩ :=
        assignTier_hit tsA lb2 s2 rest2 0 hsub2 hlkA
      have hlen2 : ts2'.tiers.length = 1 := by
        rw [hlen2']
        simp [htsA]
      obtain ⟨t2, ht2⟩ := List.length_eq_one.mp hlen2
      have hrec2 : t2.recommendation = firstRec target lb1 := by
        rw [ht2] at hmap2'
        have h' : t2.recommendation
            = setFam t1.recommendation target
              ([newLB lb1], associateIdx [] 0 lb1.securityGroups) := by
          simpa [htsA] using hmap2'
        rw [h', hrec1]
        rfl
      have hsgA : ts2'.securityGroups = sgs := by
        rw [hsg2']
        exact hsgs1
      have hadd2' : addELBv2 ts2'.securityGroups (fun l => l) lb2
          ((famFields t2.recommendation target).1.length == 0) (allowOf target)
          (famFields t2.recommendation target).1 (famFields t2.recommendation target).2
          = some (lbs2, bySg2) := by
        rw [hrec2, hsgA]
        exact hadd2
      have hd2 := elbDrop_from_assign (fun l => l) tsA ts2' lb2 t2 lbs2 bySg2
        hat2 ht2 target hil2 hadd2'
      refine ⟨({ t2 with recommendation := setFam t2.recommendation target (lbs2, bySg2) } : Tier).keys, ?_⟩
      unfold generateRecommendations generateRecommendationsOrd
      rw [dropAll_cons_eq, hd1]
      simp only []
      rw [dropAll_cons_eq, hd2]
      simp only []
      unfold dropAll
      simp only []
      unfold Tiers.recommendations
      simp only [List.map_cons, List.map_nil]
      rw [hrec2]

theorem findExisting_equiv_hit (sgs : List (String × SecurityGroup))
    (lb : LoadBalancerDescription) (fam : List LB) (bySg : List (String × Nat))
    (g : String) (gs : List String)
    (hvals : ∀ p ∈ bySg, p.2 = 0) (hne : bySg ≠ [])
    (hkeys : ∀ p ∈ bySg, hasSameIngress sgs p.1 g = some true) :
    findExisting sgs lb true fam bySg bySg (g :: gs) = some (some 0) := by
  cases hlk : lookupA g bySg with
  | some idx =>
      have h0 : idx = 0 := hvals _ (lookupA_mem _ _ _ hlk)
      subst h0
      exact findExisting_cons_hit sgs lb true fam bySg bySg g gs 0 hlk rfl
  | none =>
      cases bySg with
      | nil => exact absurd rfl hne
      | cons q qs =>
          obtain ⟨k, i⟩ := q
          have h1 := hkeys (k, i) (List.mem_cons_self _ _)
          have h0 : i = 0 := hvals (k, i) (List.mem_cons_self _ _)
          subst h0
          exact findExisting_cons_scan sgs lb true fam _ _ g gs 0 hlk
            (scanSeen_cons_hit sgs lb true fam g k 0 qs h1 rfl)

/-- C2 (amended/corrected): for a run consisting of exactly the two load
balancers, placed in the same tier, with nonempty pairwise
ingress-equivalent security groups and at least one shared listener port:
when both classify NLB, or both classify ELB, the engine keeps them in two
separate CLBs; when both classify ALB it merges them into one CLB carrying
both names.  (Over arbitrary runs with interleaved load balancers the ALB
half fails; see the counterexample.) -/
theorem c2_port_collision (lb1 lb2 : LoadBalancerDescription)
    (sgs : List (String × SecurityGroup))
    (s2 : String) (rest2 : List String) (g1 : String) (gs1 : List String)
    (g2 : String) (gs2 : List String)
    (hsub2 : lb2.subnets = s2 :: rest2) (hmem : s2 ∈ lb1.subnets)
    (hsg1 : lb1.securityGroups = g1 :: gs1)
    (hsg2 : lb2.securityGroups = g2 :: gs2)
    (hequiv : ∀ x ∈ lb1.securityGroups, ∀ y ∈ lb2.securityGroups,
      hasSameIngress sgs x y = some true)
    (hcol : ∃ p, p ∈ listenerPorts lb1.listenerDescriptions
      ∧ p ∈ listenerPorts lb2.listenerDescriptions) :
    (inspectListeners lb1 = some lbType.NLB → inspectListeners lb2 = some lbType.NLB →
      (generateRecommendations [lb1, lb2] sgs).map
          (fun recs => recs.map (fun r =>
            (r.albs.map LB.elbs, r.nlbs.map LB.elbs, r.elbs.map LB.elbs)))
        = some [(([] : List (List String)),
            [[lb1.loadBalancerName], [lb2.loadBalancerName]],
            ([] : List (List String)))])
    ∧ (inspectListeners lb1 = some lbType.ELB → inspectListeners lb2 = some lbType.ELB →
      (generateRecommendations [lb1, lb2] sgs).map
          (fun recs => recs.map (fun r =>
            (r.albs.map LB.elbs, r.nlbs.map LB.elbs, r.elbs.map LB.elbs)))
        = some [(([] : List (List String)),
            ([] : List (List String)),
            [[lb1.loadBalancerName], [lb2.loadBalancerName]])])
    ∧ (inspectListeners lb1 = some lbType.ALB → inspectListeners lb2 = some lbType.ALB →
      (generateRecommendations [lb1, lb2] sgs).map
          (fun recs => recs.map (fun r =>
            (r.albs.map LB.elbs, r.nlbs.map LB.elbs, r.elbs.map LB.elbs)))
        = some [([[lb1.loadBalancerName, lb2.loadBalancerName]],
            ([] : List (List String)),
            ([] : List (List String)))]) := by
  have hblocked : ∀ g ∈ lb2.securityGroups, ∀ idx,
      lookupA g (associateIdx [] 0 lb1.securityGroups) = some idx →
      (false || !(([newLB lb1].getD idx dummyLB).hasPortCollision lb2)) = false := by
    intro g hg idx hlk
    have h0 : idx = 0 :=
      (associateIdx_nil_mem 0 lb1.securityGroups _ (lookupA_mem _ _ _ hlk)).2
    subst h0
    show (false || !((newLB lb1).hasPortCollision lb2)) = false
    rw [newLB_collision lb1 lb2 hcol]
    rfl
  have hblocked2 : ∀ g ∈ lb2.securityGroups, ∀ p ∈ associateIdx [] 0 lb1.securityGroups,
      ∃ b, hasSameIngress sgs p.1 g = some b
        ∧ (b = true →
          (false || !(([newLB lb1].getD p.2 dummyLB).hasPortCollision lb2)) = false) := by
    intro g hg p hp
    obtain ⟨hk, hv⟩ := associateIdx_nil_mem 0 lb1.securityGroups p hp
    refine ⟨true, hequiv p.1 hk g hg, ?_⟩
    intro _
    rw [hv]
    show (false || !((newLB lb1).hasPortCollision lb2)) = false
    rw [newLB_collision lb1 lb2 hcol]
    rfl
  have hfe_blocked : findExisting sgs lb2 false [newLB lb1]
      (associateIdx [] 0 lb1.securityGroups) (associateIdx [] 0 lb1.securityGroups)
      lb2.securityGroups = some none :=
    findExisting_none_of_blocked sgs lb2 false [newLB lb1] _ _ lb2.securityGroups
      hblocked hblocked2
  have hvals : ∀ p ∈ associateIdx [] 0 lb1.securityGroups, p.2 = 0 :=
    fun p hp => (associateIdx_nil_mem 0 lb1.securityGroups p hp).2
  have hne : associateIdx [] 0 lb1.securityGroups ≠ [] := by
    rw [hsg1]
    exact associateIdx_cons_ne_nil [] 0 g1 gs1
  refine ⟨?_, ?_, ?_⟩
  · intro hil1 hil2
    have hadd2 : addELBv2 sgs (fun l => l) lb2
        ((famFields (firstRec lbType.NLB lb1) lbType.NLB).1.length == 0)
        (allowOf lbType.NLB)
        (famFields (firstRec lbType.NLB lb1) lbType.NLB).1
        (famFields (firstRec lbType.NLB lb1) lbType.NLB).2
        = some ([newLB lb1] ++ [newLB lb2],
            associateIdx (associateIdx [] 0 lb1.securityGroups) ([newLB lb1]).length
              lb2.securityGroups) :=
      addELBv2_nomatch sgs (fun l => l) lb2 false [newLB lb1]
        (associateIdx [] 0 lb1.securityGroups) hfe_blocked
    obtain ⟨subs, heng⟩ := two_lb_run lb1 lb2 sgs lbType.NLB s2 rest2 _ _
      hsub2 hmem hil1 hil2 hadd2
    rw [heng]
    simp [firstRec, setFam, newRecommendation, newLB_elbs]
  · intro hil1 hil2
    have hadd2 : addELBv2 sgs (fun l => l) lb2
        ((famFields (firstRec lbType.ELB lb1) lbType.ELB).1.length == 0)
        (allowOf lbType.ELB)
        (famFields (firstRec lbType.ELB lb1) lbType.ELB).1
        (famFields (firstRec lbType.ELB lb1) lbType.ELB).2
        = some ([newLB lb1] ++ [newLB lb2],
            associateIdx (associateIdx [] 0 lb1.securityGroups) ([newLB lb1]).length
              lb2.securityGroups) :=
      addELBv2_nomatch sgs (fun l => l) lb2 false [newLB lb1]
        (associateIdx [] 0 lb1.securityGroups) hfe_blocked
    obtain ⟨subs, heng⟩ := two_lb_run lb1 lb2 sgs lbType.ELB s2 rest2 _ _
      hsub2 hmem hil1 hil2 hadd2
    rw [heng]
    simp [firstRec, setFam, newRecommendation, newLB_elbs]
  · intro hil1 hil2
    have hkeys : ∀ p ∈ associateIdx [] 0 lb1.securityGroups,
        hasSameIngress sgs p.1 g2 = some true := by
      intro p hp
      obtain ⟨hk, hv⟩ := associateIdx_nil_mem 0 lb1.securityGroups p hp
      exact hequiv p.1 hk g2 (by rw [hsg2]; exact List.mem_cons_self _ _)
    have hfe_hit : findExisting sgs lb2 true [newLB lb1]
        (associateIdx [] 0 lb1.securityGroups) (associateIdx [] 0 lb1.securityGroups)
        lb2.securityGroups = some (some 0) := by
      rw [hsg2]
      exact findExisting_equiv_hit sgs lb2 [newLB lb1] _ g2 gs2 hvals hne hkeys
    have hadd2 : addELBv2 sgs (fun l => l) lb2
        ((famFields (firstRec lbType.ALB lb1) lbType.ALB).1.length == 0)
        (allowOf lbType.ALB)
        (famFields (firstRec lbType.ALB lb1) lbType.ALB).1
        (famFields (firstRec lbType.ALB lb1) lbType.ALB).2
        = some (updateAt [newLB lb1] 0 (fun clb => clb.replaceELB lb2),
            associateIdx (associateIdx [] 0 lb1.securityGroups) 0 lb2.securityGroups) :=
      addELBv2_merge sgs (fun l => l) lb2 true [newLB lb1]
        (associateIdx [] 0 lb1.securityGroups) 0 hfe_hit
    obtain ⟨subs, heng⟩ := two_lb_run lb1 lb2 sgs lbType.ALB s2 rest2 _ _
      hsub2 hmem hil1 hil2 hadd2
    rw [heng]
    simp [firstRec, setFam, newRecommendation, updateAt, replaceELB_elbs, newLB_elbs]

/-! ### Concrete inputs, counterexamples and witnesses -/

/-- Shorthand to build a concrete load balancer description (mirrors the
test suite's `elbBuilder`). -/
def mkLB (n : String) (subs : List String) (ls : List (String × Int))
    (gs : List String) : LoadBalancerDescription :=
  { loadBalancerName := n, subnets := subs,
    listenerDescriptions := ls.map (fun p => { protocol := p.1, port := p.2 }),
    securityGroups := gs }

instance (lb : LoadBalancerDescription) : Decidable (hasHTTPCategory lb) :=
  decidable_of_iff
    (∃ ld ∈ lb.listenerDescriptions, listenerCategory ld = some "HTTP") Iff.rfl

instance (lb : LoadBalancerDescription) : Decidable (hasTCPCategory lb) :=
  decidable_of_iff
    (∃ ld ∈ lb.listenerDescriptions, listenerCategory ld = some "TCP") Iff.rfl

def c1lbA : LoadBalancerDescription := mkLB "first" ["a"] [("HTTP", 80)] ["sg-1"]

def c1lbB : LoadBalancerDescription := mkLB "second" ["b", "a"] [("HTTP", 80)] ["sg-1"]

def c1sgs : List (String × SecurityGroup) := [("sg-1", ⟨[["10.0.0.0/8"]]⟩)]

def c1out : List Recommendation := (generateRecommendations [c1lbA, c1lbB] c1sgs).getD []

/-- C1 counterexample: "first" (subnet a) and "second" (subnets b, a) share
subnet "a" directly, yet the run yields two Recommendations with the two
names under different ones: the position of the shared subnet does matter,
refuting the claim as stated. -/
theorem c1_counterexample :
    "a" ∈ c1lbA.subnets ∧ "a" ∈ c1lbB.subnets
    ∧ generateRecommendations [c1lbA, c1lbB] c1sgs = some c1out
    ∧ c1out.length = 2
    ∧ recNames (c1out.getD 0 newRecommendation) = ["first"]
    ∧ recNames (c1out.getD 1 newRecommendation) = ["second"] := by
  decide

def c1wA : LoadBalancerDescription := mkLB "wone" ["a"] [("HTTP", 80)] ["sg-1"]

def c1wB : LoadBalancerDescription := mkLB "wtwo" ["a", "c"] [("HTTP", 80)] ["sg-1"]

def c1wout : List Recommendation := (generateRecommendations [c1wA, c1wB] c1sgs).getD []

/-- Witness for the amended C1 theorem at a concrete two-load-balancer run. -/
theorem c1_witness :
    c1wout.length = 1
    ∧ "wone" ∈ recNames (c1wout.getD 0 newRecommendation)
    ∧ "wtwo" ∈ recNames (c1wout.getD 0 newRecommendation) :=
  c1_tier_convergence c1wA c1wB c1sgs c1wout "a" ["c"] (by rfl) (by decide) (by rfl)

def c2sgs : List (String × SecurityGroup) :=
  [("sg-1", ⟨[["10.0.0.0/8"]]⟩), ("sg-3", ⟨[["192.168.0.1/32"]]⟩)]

def c2L1 : LoadBalancerDescription := mkLB "L1" ["a"] [("HTTP", 80)] ["sg-1"]

def c2LX : LoadBalancerDescription := mkLB "LX" ["a"] [("HTTP", 9999)] ["sg-3"]

def c2LY : LoadBalancerDescription := mkLB "LY" ["a"] [("HTTP", 8888)] ["sg-3", "sg-1"]

def c2L2 : LoadBalancerDescription := mkLB "L2" ["a"] [("HTTP", 80)] ["sg-1"]

def c2out : List Recommendation :=
  (generateRecommendations [c2L1, c2LX, c2LY, c2L2] c2sgs).getD []

/-- C2 counterexample: L1 and L2 are ALB-classified, in the same tier, carry
the identical security group and collide on port 80, yet an interleaved
load balancer (LY) redirects the security-group index, so they end in two
different ALB CLBs — the engine does not merge them into one ALB CLB, as
the claim states for arbitrary runs. -/
theorem c2_counterexample :
    c2L1.securityGroups = c2L2.securityGroups
    ∧ c2L1.subnets = c2L2.subnets
    ∧ inspectListeners c2L1 = some lbType.ALB
    ∧ inspectListeners c2L2 = some lbType.ALB
    ∧ (80 : Int) ∈ listenerPorts c2L1.listenerDescriptions
    ∧ (80 : Int) ∈ listenerPorts c2L2.listenerDescriptions
    ∧ generateRecommendations [c2L1, c2LX, c2LY, c2L2] c2sgs = some c2out
    ∧ c2out.map (fun r => r.albs.map LB.elbs) = [[["L1"], ["LX", "LY", "L2"]]] := by
  decide

def c2wsgs : List (String × SecurityGroup) :=
  [("sg-1", ⟨[["10.0.0.0/8"]]⟩), ("sg-2", ⟨[["10.0.0.0/8"]]⟩)]

def c2wA : LoadBalancerDescription := mkLB "wa" ["a"] [("TCP", 10201)] ["sg-1"]

def c2wB : LoadBalancerDescription := mkLB "wb" ["a"] [("TCP", 10201)] ["sg-2"]

/-- Witness for the amended C2 theorem: a concrete NLB pair with equal
ingress and a shared port stays in two separate CLBs. -/
theorem c2_witness :
    (generateRecommendations [c2wA, c2wB] c2wsgs).map
        (fun recs => recs.map (fun r =>
          (r.albs.map LB.elbs, r.nlbs.map LB.elbs, r.elbs.map LB.elbs)))
      = some [(([] : List (List String)), [[c2wA.loadBalancerName], [c2wB.loadBalancerName]],
          ([] : List (List String)))] :=
  (c2_port_collision c2wA c2wB c2wsgs "a" [] "sg-1" [] "sg-2" []
    (by rfl) (by decide) (by rfl) (by rfl) (by decide)
    ⟨10201, by decide, by decide⟩).1 (by decide) (by decide)

def c6sgs : List (String × SecurityGroup) :=
  [("sg-1", ⟨[["10.0.0.0/8"]]⟩), ("sg-2", ⟨[["10.0.0.0/8"]]⟩), ("sg-4", ⟨[["10.0.0.0/8"]]⟩)]

def c6one : LoadBalancerDescription := mkLB "one" ["a"] [("TCP", 100)] ["sg-1"]

def c6two : LoadBalancerDescription := mkLB "two" ["a"] [("TCP", 100)] ["sg-2"]

def c6three : LoadBalancerDescription := mkLB "three" ["a"] [("TCP", 200)] ["sg-4"]

/-- C6 counterexample: on the same two inputs, two admissible enumerations
of the security-group index (insertion order and its reverse — a
permutation of the same entries, as the concrete instance shows) lead the
scan to different CLBs and hence to different outputs.  Go fixes no map
iteration order, so the engine's output is not a function of its two
inputs alone. -/
theorem c6_counterexample :
    generateRecommendationsOrd (fun l => l) [c6one, c6two, c6three] c6sgs
      ≠ generateRecommendationsOrd (fun l => l.reverse) [c6one, c6two, c6three] c6sgs
    ∧ ([("sg-1", (0 : Nat)), ("sg-2", 1)].reverse).Perm [("sg-1", (0 : Nat)), ("sg-2", 1)]
    ∧ generateRecommendations [c6one, c6two, c6three] c6sgs
      = generateRecommendationsOrd (fun l => l) [c6one, c6two, c6three] c6sgs := by
  refine ⟨by decide, by decide, rfl⟩

/-- C6 (amended): the output may depend on the enumeration order of the
security-group index scan (left unspecified by Go's map iteration), and
identical output across runs is guaranteed only for identical enumeration
orders; what holds for every enumeration is correctness of the chosen
target: whenever the placement search merges into an existing CLB, that
CLB is reachable from one of the load balancer's security groups either by
a direct index hit or through an ingress-equivalent indexed group, and the
port-collision rule permits the merge. -/
theorem c6_determinism (sgs : List (String × SecurityGroup))
    (lb : LoadBalancerDescription) (allow : Bool) (fam : List LB)
    (bySg ord : List (String × Nat)) (gs : List String) (idx : Nat)
    (h : findExisting sgs lb allow fam bySg ord gs = some (some idx)) :
    ∃ g ∈ gs,
      (lookupA g bySg = some idx
        ∧ (allow = true ∨ (fam.getD idx dummyLB).hasPortCollision lb = false))
      ∨ ∃ k, (k, idx) ∈ ord ∧ hasSameIngress sgs k g = some true
          ∧ (allow = true ∨ (fam.getD idx dummyLB).hasPortCollision lb = false) :=
  findExisting_some sgs lb allow fam bySg ord gs idx h

/-- Witness for the amended C6 theorem at a concrete scan. -/
theorem c6_witness :
    findExisting c6sgs c6three false [newLB c6one] [("sg-1", 0)] [("sg-1", 0)] ["sg-4"]
      = some (some 0)
    ∧ ∃ g ∈ ["sg-4"],
      (lookupA g [("sg-1", (0 : Nat))] = some 0
        ∧ (false = true ∨ (([newLB c6one].getD 0 dummyLB).hasPortCollision c6three) = false))
      ∨ ∃ k, (k, (0 : Nat)) ∈ [("sg-1", (0 : Nat))] ∧ hasSameIngress c6sgs k g = some true
          ∧ (false = true ∨ (([newLB c6one].getD 0 dummyLB).hasPortCollision c6three) = false) :=
  ⟨by decide,
    c6_determinism c6sgs c6three false [newLB c6one] [("sg-1", 0)] [("sg-1", 0)]
      ["sg-4"] 0 (by decide)⟩

def c7lb : LoadBalancerDescription := mkLB "only" ["a"] [("HTTP", 80)] ["sg-x"]

def c7out : List Recommendation := (generateRecommendations [c7lb] []).getD []

/-- C7 counterexample: a load balancer referencing a security-group id with
no entry in the ingress input is placed successfully — the run does not
fail — because the first CLB of its type in a tier is created without ever
consulting ingress data. -/
theorem c7_counterexample :
    "sg-x" ∈ c7lb.securityGroups
    ∧ lookupA "sg-x" ([] : List (String × SecurityGroup)) = none
    ∧ generateRecommendations [c7lb] [] = some c7out
    ∧ allNames c7out = ["only"] := by
  decide

/-- C7 (amended): a security-group id missing from the ingress input is
fatal exactly when its ranges are demanded: flattening it fails, every
ingress comparison involving it fails, and the equivalence scan aborts the
run the moment it reaches such a comparison; an id whose ranges are never
demanded (first CLB of its type in the tier, or a direct id hit) is
silently tolerated, as the counterexample shows. -/
theorem c7_missing_ingress_fatal (sgs : List (String × SecurityGroup)) (g : String)
    (hmiss : lookupA g sgs = none) :
    findOrGetIngress sgs g = none
    ∧ (∀ g2, hasSameIngress sgs g g2 = none ∧ hasSameIngress sgs g2 g = none)
    ∧ (∀ (lb : LoadBalancerDescription) (allow : Bool) (fam : List LB)
        (p : String × Nat) (rest : List (String × Nat)),
        scanSeen sgs lb allow fam g (p :: rest) = none) := by
  refine ⟨(findOrGetIngress_none_iff sgs g).mpr hmiss, ?_, ?_⟩
  · intro g2
    exact ⟨hasSameIngress_none_left sgs g g2 hmiss,
      hasSameIngress_none_right sgs g2 g hmiss⟩
  · intro lb allow fam p rest
    obtain ⟨k, i⟩ := p
    unfold scanSeen
    rw [hasSameIngress_none_right sgs k g hmiss]

/-- Witness for the amended C7 theorem at a concrete missing id. -/
theorem c7_witness :
    findOrGetIngress c1sgs "sg-miss" = none
    ∧ (∀ g2, hasSameIngress c1sgs "sg-miss" g2 = none
        ∧ hasSameIngress c1sgs g2 "sg-miss" = none)
    ∧ (∀ (lb : LoadBalancerDescription) (allow : Bool) (fam : List LB)
        (p : String × Nat) (rest : List (String × Nat)),
        scanSeen c1sgs lb allow fam "sg-miss" (p :: rest) = none) :=
  c7_missing_ingress_fatal c1sgs "sg-miss" (by decide)

def c3bad : LoadBalancerDescription := mkLB "bad" ["a"] [("UDP", 53)] []

/-- Witness for C3: a load balancer whose only listener speaks an
unrecognised protocol has no category, and its presence makes the whole
run fail. -/
theorem c3_witness : generateRecommendations [c3bad] [] = none :=
  c3_listener_classification.2 [c3bad] [] c3bad (by decide) (by decide) (by decide)

def c4sgs : List (String × SecurityGroup) :=
  [("sg-1", ⟨[["10.0.0.0/8"], ["10.0.0.0/8", "172.16.0.0/12"]]⟩),
   ("sg-3", ⟨[["10.0.0.0/8"]]⟩)]

/-- Witness for C4: "sg-3"'s flattened range set is a strict subset of
"sg-1"'s, and the equivalence test answers `false`. -/
theorem c4_witness : hasSameIngress c4sgs "sg-3" "sg-1" = some false :=
  ((c4_ingress_equality.2 c4sgs "sg-3" "sg-1" ["10.0.0.0/8"]
    ["10.0.0.0/8", "172.16.0.0/12"] (by rfl) (by rfl)).2 (by decide) (by decide))

def c5lbs : List LoadBalancerDescription :=
  [mkLB "first" ["a"] [("HTTP", 80), ("HTTPS", 443)] ["sg-1"],
   mkLB "second" ["a"] [("HTTP", 80), ("HTTPS", 443)] ["sg-1"]]

def c5out : List Recommendation := (generateRecommendations c5lbs []).getD []

/-- Witness for C5 at a concrete two-load-balancer run. -/
theorem c5_witness :
    (allNames c5out).Perm (c5lbs.map LoadBalancerDescription.loadBalancerName)
    ∧ (allNames c5out).length = c5lbs.length
    ∧ ((c5lbs.map LoadBalancerDescription.loadBalancerName).Nodup → (allNames c5out).Nodup) :=
  c5_exactly_one_clb c5lbs [] c5out (by rfl)

def c8lbs : List LoadBalancerDescription :=
  [mkLB "first" ["a"] [("HTTP", 80), ("HTTPS", 443)] ["sg-1"],
   mkLB "second" ["a"] [("HTTP", 80), ("HTTPS", 443)] ["sg-1"]]

def c8out : List Recommendation := (generateRecommendations c8lbs []).getD []

/-- Witness for C8: two load balancers consolidated into one ALB give the
specification's formula value, which evaluates to 55. -/
theorem c8_witness :
    overallSaving c8out = specSavings c8lbs.length
      ((c8out.map (fun r => r.albs.length)).sum)
      ((c8out.map (fun r => r.nlbs.length)).sum)
      ((c8out.map (fun r => r.elbs.length)).sum)
    ∧ overallSaving c8out = 55 :=
  ⟨c8_savings_formula c8lbs [] c8out (by rfl), by
    have ht : totals c8out = (2, 1, 0, 0) := by decide
    unfold overallSaving
    rw [ht]
    unfold saving
    norm_num⟩

def c9lbs : List LoadBalancerDescription :=
  [mkLB "first" ["b", "a"] [("HTTP", 8080), ("TCP", 443)] ["sg-2", "sg-1"]]

def c9out : List Recommendation := (generateRecommendations c9lbs []).getD []

/-- Witness for C9 at a concrete run. -/
theorem c9_witness :
    (∃ ts, dropAll (fun l => l) (newTiers []) c9lbs = some ts ∧ c9out = ts.recommendations)
    ∧ (∀ r ∈ c9out, List.Sorted strLe r.subnets)
    ∧ (∀ r ∈ c9out, ∀ clb ∈ recCLBs r,
        (∃ ns : List Int, List.Sorted (· ≤ ·) ns ∧ clb.Ports = ns.map toString)
        ∧ List.Sorted strLe clb.SecurityGroups
        ∧ clb.ELBs = clb.elbs) :=
  c9_output_ordering c9lbs [] c9out (by rfl)

def c10lbs : List LoadBalancerDescription :=
  [mkLB "first" ["a"] [("HTTP", 80), ("HTTP", 443), ("HTTP", 80)] ["sg-1"],
   mkLB "second" ["a"] [("HTTP", 443), ("HTTP", 8443)] ["sg-1"]]

def c10out : List Recommendation := (generateRecommendations c10lbs []).getD []

/-- Witness for C10 at a concrete run in which a merge re-offers ports the
ALB CLB already exposes. -/
theorem c10_witness :
    ((c10out.getD 0 newRecommendation).albs.getD 0 dummyLB).ports.Nodup
    ∧ ∃ ns : List Int, List.Sorted (· < ·) ns
        ∧ ((c10out.getD 0 newRecommendation).albs.getD 0 dummyLB).Ports = ns.map toString :=
  c10_ports_unique c10lbs [] c10out (by rfl) (c10out.getD 0 newRecommendation) (by decide)
    ((c10out.getD 0 newRecommendation).albs.getD 0 dummyLB) (by decide)

end ElbPruner
